import Mathlib

/-!
Shallow embedding of the incremental Jira→Airtable sync engine
(`src/sync.py`, helper scripts under `src/scripts/`), together with
theorems settling the spec claims about it.

Conventions:
* Python duck-typed Jira field values are the inductive `JField`; an
  attribute such as `.value` "exists" exactly when the corresponding
  `Option` is `some`.
* Values stored into Airtable are `PVal`.  `PVal.stringified f` denotes
  the Python `str(f)` fallback, kept symbolic.
* Airtable record fields are association lists keyed by field id;
  reading `record['fields'][name]` resolves the name through the table
  schema, as the Airtable API does.
* Fallible Python code is modelled with `Except Unit`; code that
  catches internally is a total function.
-/

namespace JiraSync

/-- Raw Jira field value as seen by `_process_field_value`. -/
inductive JField where
  | str (s : String)
  | int (n : Int)
  | bool (b : Bool)
  /-- duck-typed object; each attribute present iff `some` -/
  | obj (value : Option String) (name : Option String) (displayName : Option String)
  | list (elems : List JField)

/-- Value written to / read from Airtable records. -/
inductive PVal where
  | s (v : String)
  | i (n : Int)
  | b (v : Bool)
  | strList (xs : List String)
  /-- a Python list returned unchanged by the extraction fallthrough -/
  | rawList (xs : List JField)
  /-- Python `str(f)` fallback, kept symbolic -/
  | stringified (f : JField)

/-- Python truthiness for the values that flow through the sync. -/
def pvTruthy : PVal → Bool
  | .s v => v ≠ ""
  | .i n => n ≠ 0
  | .b v => v
  | .strList xs => !xs.isEmpty
  | .rawList xs => !xs.isEmpty
  | .stringified _ => true

/-- First-match association-list lookup (Python `dict` access). -/
def alookup : List (String × α) → String → Option α
  | [], _ => none
  | (k', v) :: rest, k => if k' = k then some v else alookup rest k

/-- Python `d[k] = v`: overwrite in place if present, else append. -/
def insertOverwrite (l : List (String × α)) (k : String) (v : α) : List (String × α) :=
  if l.any (fun p => p.1 = k) then
    l.map (fun p => if p.1 = k then (k, v) else p)
  else l ++ [(k, v)]

/-- Python `s.startswith(p)` on the character level. -/
def pyStartsWith (s p : String) : Bool :=
  s.toList.take p.toList.length = p.toList

/-- Attribute probe `hasattr(x, 'value')` followed by `x.value`. -/
def getValueAttr : JField → Option String
  | .obj (some v) _ _ => some v
  | _ => none

/-- Attribute probe `hasattr(x, 'name')` followed by `x.name`. -/
def getNameAttr : JField → Option String
  | .obj _ (some n) _ => some n
  | _ => none

/-- Mirrors `JiraAirtableSync._process_field_value` (src/sync.py:492-515).
An `Except.error` models an uncaught `AttributeError` raised while
mapping `.value`/`.name` over a heterogeneous list. -/
def process_field_value : JField → Except Unit (Option PVal)
  | .str s => .ok (some (.s s))
  | .int n => .ok (some (.i n))
  | .bool b => .ok (some (.b b))
  | .obj v n d =>
    match v with
    | some v' => .ok (some (.s v'))
    | none =>
      match n with
      | some n' => .ok (some (.s n'))
      | none =>
        match d with
        | some d' => .ok (some (.s d'))
        | none => .ok (some (.stringified (.obj none none none)))
  | .list [] => .ok none
  | .list (h :: t) =>
    if (getValueAttr h).isSome then
      match (h :: t).mapM getValueAttr with
      | some vs => .ok (some (.strList vs))
      | none => .error ()
    else if (getNameAttr h).isSome then
      match (h :: t).mapM getNameAttr with
      | some vs => .ok (some (.strList vs))
      | none => .error ()
    else .ok (some (.rawList (h :: t)))

/-- A comment on a Jira issue (`issue.fields.comment.comments[i]`). -/
structure JComment where
  body : String
  /-- `author.displayName` when the attribute exists -/
  authorDisplayName : Option String
  /-- Python `str(author)` fallback -/
  authorStr : String
  updated : String

/-- One changelog history entry restricted to what the code reads:
its `created` time and the `field` names of its items. -/
structure JHistory where
  created : String
  itemFields : List String

/-- Jira issue object as the engine reads it.  `parent` is `some k`
exactly when `hasattr(issue.fields, 'parent')` holds with key `k`. -/
structure JiraIssue where
  key : String
  fields : List (String × JField)
  parent : Option String
  comments : List JComment
  histories : List JHistory

/-- Mirrors `_get_comment_field_value` (src/sync.py:447-469). -/
def get_comment_field_value (issue : JiraIssue) (fieldName : String) : Option PVal :=
  match issue.comments.getLast? with
  | none => none
  | some c =>
    if fieldName = "latest_comment" then some (.s c.body)
    else if fieldName = "comment_author" then
      match c.authorDisplayName with
      | some d => some (.s d)
      | none => some (.s c.authorStr)
    else if fieldName = "comment_updated" then some (.s c.updated)
    else none

/-- Mirrors `_get_status_updated_value` (src/sync.py:471-490): collect
`created` stamps of status-change items, return the last maximum. -/
def get_status_updated_value (issue : JiraIssue) : Option PVal :=
  let stamps := issue.histories.foldl
    (fun acc h => acc ++ h.itemFields.filterMap
      (fun f => if f = "status" then some h.created else none)) []
  let best := stamps.foldl
    (fun acc c =>
      match acc with
      | none => some c
      | some m => if m ≤ c then some c else some m) none
  best.map .s

/-- Mirrors `_get_issue_field_value` (src/sync.py:381-445): special
cases first, then the generic field fetch; every exception is caught
and collapsed to `None`. -/
def get_issue_field_value (issue : JiraIssue) (fieldName : String) : Option PVal :=
  if fieldName = "key" then some (.s issue.key)
  else if fieldName = "parent" then issue.parent.map .s
  else if fieldName = "latest_comment" ∨ fieldName = "comment_author"
          ∨ fieldName = "comment_updated" then
    get_comment_field_value issue fieldName
  else if fieldName = "status_updated" then get_status_updated_value issue
  else
    match alookup issue.fields fieldName with
    | none => none
    | some f =>
      match process_field_value f with
      | .ok v => v
      | .error _ => none

/-! ## Airtable store model -/

/-- An Airtable record payload: field id → value. -/
abbrev Payload := List (String × PVal)

/-- One field of the Airtable table schema. -/
structure ATField where
  id : String
  name : String
  ftype : String
  choices : List String
deriving DecidableEq

/-- An Airtable record. -/
structure ATRecord where
  id : String
  fields : Payload

/-- The Airtable table: schema, records, id counter and a counter of
schema-patch (`update_schema`) calls issued against it. -/
structure ATable where
  schema : List ATField
  records : List ATRecord
  nextId : Nat
  patchCalls : Nat

/-- Resolve an Airtable field name to its field id via the schema
(the REST API keys record fields by name). -/
def resolveFieldId (schema : List ATField) (name : String) : Option String :=
  (schema.find? (fun f => f.name = name)).map (fun f => f.id)

/-- Read `record['fields'].get(name)`: resolve the name, then look the
field up in the record. -/
def recordFieldByName (schema : List ATField) (r : ATRecord) (name : String) : Option PVal :=
  match resolveFieldId schema name with
  | none => none
  | some fid => alookup r.fields fid

/-- Whether the store accepts a value for a field: single/multi-select
fields reject any option name outside their current choice list. -/
def valueOkForField (f : ATField) (v : PVal) : Bool :=
  if f.ftype = "singleSelect" then
    match v with
    | .s s => f.choices.contains s
    | _ => false
  else if f.ftype = "multipleSelects" then
    match v with
    | .strList xs => xs.all f.choices.contains
    | _ => false
  else true

/-- A payload is accepted by the store iff every field id exists in the
schema and carries an acceptable value. -/
def payloadValid (schema : List ATField) (p : Payload) : Bool :=
  p.all (fun kv =>
    match schema.find? (fun f => f.id = kv.1) with
    | some f => valueOkForField f kv.2
    | none => false)

/-- Opaque record id assigned by the store for the `n`-th creation.
The store guarantees uniqueness; the unary suffix makes that
uniqueness provable (`recId_injective`). -/
def recId (n : Nat) : String :=
  "rec" ++ String.mk (List.replicate n 'x')

/-- Create one record, assigning the next opaque id. -/
def createOne (t : ATable) (p : Payload) : ATable × String :=
  let rid := recId t.nextId
  ({ t with records := t.records ++ [⟨rid, p⟩], nextId := t.nextId + 1 }, rid)

/-- `table.batch_create`: modelled atomic — all payloads are created,
callers check validity beforehand (an invalid payload makes the call
raise instead, see `batch_create_with_progress`). -/
def batchCreate (t : ATable) (ps : List Payload) : ATable × List String :=
  ps.foldl
    (fun acc p =>
      let (t', rid) := createOne acc.1 p
      (t', acc.2 ++ [rid]))
    (t, [])

/-- Merge an update payload into existing record fields (PATCH). -/
def mergeFields (fs upd : Payload) : Payload :=
  upd.foldl (fun a kv => insertOverwrite a kv.1 kv.2) fs

/-- `table.batch_update`: merge each payload into the record with the
given id. -/
def batchUpdate (t : ATable) (ups : List (String × Payload)) : ATable :=
  { t with
    records := ups.foldl
      (fun recs u => recs.map
        (fun r => if r.id = u.1 then { r with fields := mergeFields r.fields u.2 } else r))
      t.records }

/-- `table.update_schema([field])`: replace the field and count the
schema-patch call. -/
def updateSchema (t : ATable) (f : ATField) : ATable :=
  { t with
    schema := t.schema.map (fun g => if g.id = f.id then f else g),
    patchCalls := t.patchCalls + 1 }

/-! ## Engine context and configuration-derived helpers -/

/-- One entry of `JIRA_TO_AIRTABLE_FIELD_MAP` after JSON parsing. -/
structure FieldMappingInfo where
  airtable_field_id : String
  airtable_field_name : Option String
deriving DecidableEq

/-- The engine state the claims depend on: the field mappings
(Python dict, insertion ordered). -/
structure SyncCtx where
  fieldMappings : List (String × FieldMappingInfo)

/-- Mirrors `_get_airtable_field_id` (src/sync.py:120-139) for the
dict-shaped mappings this configuration produces. -/
def get_airtable_field_id (ctx : SyncCtx) (jiraField : String) : Option String :=
  (alookup ctx.fieldMappings jiraField).map (fun m => m.airtable_field_id)

/-- Mirrors `_get_airtable_field_name` (src/sync.py:114-118). -/
def get_airtable_field_name (ctx : SyncCtx) (jiraField : String) : Option String :=
  match alookup ctx.fieldMappings jiraField with
  | some m => m.airtable_field_name
  | none => none

/-- Mirrors `_populate_field_names` (src/sync.py:88-112): every mapping
without a configured name gets `None`, and only the `updated` mapping
is then filled in from the schema.  All errors are caught, so the
function is total and never aborts construction. -/
def populate_field_names (ctx : SyncCtx) (schema : List ATField) : SyncCtx :=
  ⟨ctx.fieldMappings.map (fun kv =>
    let (jiraField, info) := kv
    if info.airtable_field_name.isSome then (jiraField, info)
    else if jiraField = "updated" then
      (jiraField, { info with airtable_field_name :=
        (schema.find? (fun f => f.id = info.airtable_field_id)).map (fun f => f.name) })
    else (jiraField, { info with airtable_field_name := none }))⟩

/-! ## Issue conversion and the sync pipeline -/

/-- A value passed around as "issue" by the engine: either a Jira issue
object or an already-converted Airtable payload dict. -/
inductive PyIssue where
  | obj (i : JiraIssue)
  | dict (p : Payload)

/-- Mirrors `_convert_issue_to_record` (src/sync.py:517-563).  The dict
branch returns the input unchanged when any key looks like an Airtable
field id (`startswith('fld')`); otherwise both branches fold the field
mappings, skipping `parent` and omitting `None` values. -/
def convert_issue_to_record (ctx : SyncCtx) (issue : PyIssue) : Payload :=
  match issue with
  | .dict p =>
    if p.any (fun kv => pyStartsWith kv.1 "fld") then p
    else
      ctx.fieldMappings.foldl
        (fun acc kv =>
          if kv.1 = "parent" then acc
          else
            match alookup p kv.1 with
            | some v => insertOverwrite acc kv.2.airtable_field_id v
            | none => acc) []
  | .obj i =>
    ctx.fieldMappings.foldl
      (fun acc kv =>
        if kv.1 = "parent" then acc
        else
          match get_issue_field_value i kv.1 with
          | some v => insertOverwrite acc kv.2.airtable_field_id v
          | none => acc) []

/-- Mirrors `_extract_parent_key` (src/sync.py:768-793).  The dict
branch reads the literal key `'parent'` from the payload (which in the
sync path is keyed by Airtable field ids, so it never fires); a
non-string value there cannot occur in this pipeline. -/
def extract_parent_key (ctx : SyncCtx) (issue : PyIssue) : Option String :=
  match issue with
  | .obj i => i.parent
  | .dict p =>
    if ctx.fieldMappings.any (fun kv => kv.1 = "parent") then
      match alookup p "parent" with
      | some (.s s) => some s
      | _ => none
    else none

/-- Mirrors `_batch_create_with_progress` (src/sync.py:299-327): try
the whole batch; if the store rejects it, fall back to one-by-one
creation, collecting the records that still fail.  Returns the new
store, the created count and the failed payloads; it never raises. -/
def batch_create_with_progress (t : ATable) (records : List Payload) :
    ATable × Nat × List Payload :=
  if records.all (fun p => payloadValid t.schema p) then
    let (t', ids) := batchCreate t records
    (t', ids.length, [])
  else
    records.foldl
      (fun acc p =>
        let (t, cnt, failed) := acc
        if payloadValid t.schema p then ((createOne t p).1, cnt + 1, failed)
        else (t, cnt, failed ++ [p]))
      (t, 0, [])

/-- Key of an issue as `_process_issue_batch` computes it: objects use
`issue.key`, dicts use the value under the mapped key field id. -/
def issueBatchKey (ctx : SyncCtx) (issue : PyIssue) : Option PVal :=
  match issue with
  | .obj i => some (.s i.key)
  | .dict p =>
    match get_airtable_field_id ctx "key" with
    | none => none
    | some kfid => alookup p kfid

/-- Mirrors `_update_parent_relationships` (src/sync.py:795-853): for
each issue with a truthy parent key, link child → parent only when
both appear in `existing` and a `parent` field id is mapped; all
resulting updates go out in one `batch_update`. -/
def update_parent_relationships (ctx : SyncCtx) (t : ATable)
    (issues : List PyIssue) (existing : List (String × String)) : ATable :=
  let parentUpdates := issues.foldl
    (fun acc issue =>
      let issueKey : Option String :=
        match issue with
        | .obj i => some i.key
        | .dict p =>
          match get_airtable_field_id ctx "key" with
          | none => none
          | some kfid =>
            match alookup p kfid with
            | some (.s k) => some k
            | _ => none
      match issueKey with
      | none => acc
      | some ik =>
        match extract_parent_key ctx issue with
        | none => acc
        | some pk =>
          if pk = "" then acc
          else
            match alookup existing ik, alookup existing pk with
            | some childId, some parentId =>
              match get_airtable_field_id ctx "parent" with
              | none => acc
              | some pfid => acc ++ [(childId, [(pfid, PVal.strList [parentId])])]
            | _, _ => acc)
    []
  if parentUpdates.isEmpty then t else batchUpdate t parentUpdates

/-- Mirrors `_process_issue_batch` (src/sync.py:705-766): split the
batch into creates and updates against the pre-computed id map, run
the creates then the updates, then the parent pass. -/
def process_issue_batch (ctx : SyncCtx) (t : ATable)
    (issues : List PyIssue) (existing : List (String × String)) : ATable :=
  let split := issues.foldl
    (fun (acc : List Payload × List (String × Payload)) issue =>
      match issueBatchKey ctx issue with
      | none => acc
      | some kv =>
        if pvTruthy kv then
          let rd := convert_issue_to_record ctx issue
          match kv with
          | .s k =>
            (match alookup existing k with
             | some rid => (acc.1, acc.2 ++ [(rid, rd)])
             | none => (acc.1 ++ [rd], acc.2))
          | _ => (acc.1 ++ [rd], acc.2)
        else acc)
    ([], [])
  let t1 := if split.1.isEmpty then t else (batch_create_with_progress t split.1).1
  let t2 := if split.2.isEmpty then t1 else batchUpdate t1 split.2
  update_parent_relationships ctx t2 issues existing

/-- Chunking helper (`keys[i:i+CHUNK]` loops), with structural fuel so
it evaluates by reduction; `chunksOf n l` with `0 < n` splits `l` into
consecutive pieces of size at most `n`. -/
def chunksOfAux (n : Nat) : Nat → List α → List (List α)
  | 0, _ => []
  | _, [] => []
  | fuel + 1, x :: xs => ((x :: xs).take n) :: chunksOfAux n fuel ((x :: xs).drop n)

/-- Chunk a list into pieces of size `n` (`n = 0` never occurs: Python
`range(0, len, 0)` would raise). -/
def chunksOf (n : Nat) (l : List α) : List (List α) :=
  if n = 0 then [] else chunksOfAux n l.length l

/-- Add to a Python set, modelled as an append-if-absent list (the
result is order-insensitive for every use below). -/
def insertSet (l : List String) (k : String) : List String :=
  if l.contains k then l else l ++ [k]

/-- Mirrors `_get_existing_record_ids` (src/sync.py:647-703): requires
both the mapped key field id and name to be truthy, then queries the
store chunk by chunk with an `OR({name} = 'key')` formula and maps each
returned record's key value to its record id (later hits overwrite). -/
def get_existing_record_ids (ctx : SyncCtx) (t : ATable) (jiraKeys : List String) :
    List (String × String) :=
  if jiraKeys.isEmpty then []
  else
    match get_airtable_field_id ctx "key", get_airtable_field_name ctx "key" with
    | some kfid, some kfname =>
      if kfid = "" ∨ kfname = "" then []
      else
        (chunksOf 100 jiraKeys).foldl
          (fun m chunk =>
            let hits := t.records.filter
              (fun r => chunk.any (fun k =>
                match recordFieldByName t.schema r kfname with
                | some (.s s) => s == k
                | _ => false))
            hits.foldl
              (fun m r =>
                match recordFieldByName t.schema r kfname with
                | some (.s k) => if k = "" then m else insertOverwrite m k r.id
                | _ => m)
              m)
          []
    | _, _ => []

/-- Mirrors the method `JiraAirtableSync.sync_issues` (src/sync.py:855-931)
with the fetch result passed in as `issues`: transform every issue
(recording parent keys and the key set), resolve existing record ids
once, then process the transformed payload dicts in `batchSize` chunks
against that single id map. -/
def sync_issues (ctx : SyncCtx) (t : ATable) (issues : List JiraIssue)
    (batchSize : Nat) : ATable :=
  if issues.isEmpty then t
  else
    let step := issues.foldl
      (fun (acc : List (String × Payload) × List (String × String) × List String) issue =>
        let (transformed, keyToParent, allKeys) := acc
        let data := convert_issue_to_record ctx (.obj issue)
        let (keyToParent, allKeys) :=
          match extract_parent_key ctx (.obj issue) with
          | some pk =>
            if pk = "" then (keyToParent, allKeys)
            else (insertOverwrite keyToParent issue.key pk, insertSet allKeys pk)
          | none => (keyToParent, allKeys)
        (transformed ++ [(issue.key, data)], keyToParent, insertSet allKeys issue.key))
      ([], [], [])
    let transformed := step.1
    let allKeys := step.2.2
    let keyToRecordId := get_existing_record_ids ctx t allKeys
    (chunksOf batchSize transformed).foldl
      (fun t batch =>
        process_issue_batch ctx t (batch.map (fun kp => PyIssue.dict kp.2)) keyToRecordId)
      t

/-! ## Watermark read, schema validation, select-option patching -/

/-- Mirrors `_get_most_recent_jira_update_time` (src/sync.py:206-243).
`q` is the outcome of the `table.all(sort=['-updated'], max_records=1)`
query (already sorted server-side).  The whole body sits in a
`try/except` that returns `None`, so the function never raises — the
`Except.ok` result is total over every query outcome. -/
def get_most_recent_jira_update_time (ctx : SyncCtx) (schema : List ATField)
    (q : Except Unit (List ATRecord)) : Except Unit (Option PVal) :=
  match get_airtable_field_name ctx "updated" with
  | none => .ok none
  | some uf =>
    if uf = "" then .ok none
    else
      match q with
      | .error _ => .ok none
      | .ok recs =>
        match recs with
        | [] => .ok none
        | r :: _ =>
          match recordFieldByName schema r uf with
          | some v => if pvTruthy v then .ok (some v) else .ok none
          | none => .ok none

/-- One field-map entry as the validation script reads it:
`mapping.get('airtable_field_id')`. -/
abbrev ScriptMapping := List (String × Option String)

/-- Mirrors `validate_schema` (src/scripts/validate_schema.py): returns
the boolean verdict plus the list of reported missing mappings; it
returns `False` rather than raising on any problem. -/
def validate_schema (fieldMap : ScriptMapping)
    (tables : List (String × List ATField)) (tableName : String) :
    Bool × List String :=
  if fieldMap.isEmpty then (false, [])
  else
    match tables.find? (fun tbl => tbl.1 = tableName) with
    | none => (false, [])
    | some tbl =>
      let fieldIds := tbl.2.map (fun f => f.id)
      let missing := fieldMap.foldl
        (fun acc kv =>
          match kv.2 with
          | none => acc ++ [kv.1 ++ " -> missing airtable_field_id"]
          | some fid =>
            if fieldIds.contains fid then acc
            else
              let fname :=
                match tbl.2.find? (fun f => f.id = fid) with
                | some f => f.name
                | none => fid
              acc ++ [kv.1 ++ " -> " ++ fname ++ " (" ++ fid ++ ")"])
        []
      (missing.isEmpty, missing)

/-- Mirrors `add_select_option` (src/sync.py:565-606), the schema-patch
helper: look the field up by name, bail out unless it is a select
field, and append the option via `update_schema` only when it is not
already a choice.  (No write path of the engine ever calls it.) -/
def add_select_option (t : ATable) (fieldName option : String) : ATable :=
  match t.schema.find? (fun f => f.name = fieldName) with
  | none => t
  | some f =>
    if f.ftype ≠ "singleSelect" ∧ f.ftype ≠ "multipleSelects" then t
    else if f.choices.contains option then t
    else updateSchema t { f with choices := f.choices ++ [option] }

/-! ## Timezone discovery and JQL composition -/

/-- Mirrors `_get_jira_timezone` (src/sync.py:72-86): the profile
lookup either fails, or yields an optional `timeZone`; both fallbacks
give `"UTC"`. -/
def get_jira_timezone (profile : Except Unit (Option String)) : String :=
  match profile with
  | .ok (some tz) => tz
  | .ok none => "UTC"
  | .error _ => "UTC"

/-- Proleptic-Gregorian civil date from days since 1970-01-01
(the arithmetic behind Python `datetime`). -/
def civilFromDays (z0 : Int) : Int × Nat × Nat :=
  let z := z0 + 719468
  let era := z.fdiv 146097
  let doe := (z - era * 146097).toNat
  let yoe := (doe - doe / 1460 + doe / 36524 - doe / 146096) / 365
  let y := (yoe : Int) + era * 400
  let doy := doe - (365 * yoe + yoe / 4 - yoe / 100)
  let mp := (5 * doy + 2) / 153
  let d := doy - (153 * mp + 2) / 5 + 1
  let m := if mp < 10 then mp + 3 else mp - 9
  (if m ≤ 2 then y + 1 else y, m, d)

/-- Zero-pad to two digits (`%m`, `%d`, `%H`, `%M`). -/
def pad2 (n : Nat) : String :=
  if n < 10 then "0" ++ toString n else toString n

/-- Zero-pad a year to four digits (`%Y`; negative years do not occur). -/
def pad4 (y : Int) : String :=
  let n := y.toNat
  if n < 10 then "000" ++ toString n
  else if n < 100 then "00" ++ toString n
  else if n < 1000 then "0" ++ toString n
  else toString n

/-- `local_dt.strftime('%Y-%m-%d %H:%M')` for the instant `epochSec`
(seconds since epoch, UTC) rendered at UTC offset `offMin` minutes:
seconds are dropped, which is the minute-granularity contract. -/
def strftimeMinute (epochSec : Int) (offMin : Int) : String :=
  let lm := (epochSec + offMin * 60).fdiv 60
  let days := lm.fdiv 1440
  let rem := (lm - days * 1440).toNat
  let c := civilFromDays days
  pad4 c.1 ++ "-" ++ pad2 c.2.1 ++ "-" ++ pad2 c.2.2 ++ " " ++
    pad2 (rem / 60) ++ ":" ++ pad2 (rem % 60)

/-- Mirrors `_format_jira_timestamp` (src/sync.py:171-188).  `parse`
stands for `datetime.fromisoformat` (an instant in epoch seconds on
success) and `tzdb` for `pytz.timezone` composed with the zone's UTC
offset in minutes; any failure is caught and becomes `None`. -/
def format_jira_timestamp (parse : String → Option Int)
    (profile : Except Unit (Option String)) (tzdb : String → Option Int)
    (timestamp : String) : Option String :=
  match parse timestamp with
  | none => none
  | some t =>
    match tzdb (get_jira_timezone profile) with
    | none => none
    | some off => some (strftimeMinute t off)

/-- Python `str(x)` for an optional string, as interpolated into the
JQL f-string (`None` prints as `"None"`). -/
def optPyStr : Option String → String
  | some s => s
  | none => "None"

/-- Python `sep.join(parts)`. -/
def pyJoin (sep : String) : List String → String
  | [] => ""
  | [x] => x
  | x :: y :: rest => x ++ sep ++ pyJoin sep (y :: rest)

/-- Mirrors the query composition of `_fetch_updated_jira_issues`
(src/sync.py:246-297): base project filter, optional watermark clause
for a truthy `last_sync`, optional parenthesised extra JQL filter,
joined with `AND` and closed by the fixed sort clause. -/
def build_jql_query (projectKey : String) (lastSync : Option String)
    (parse : String → Option Int) (profile : Except Unit (Option String))
    (tzdb : String → Option Int) (jqlFilter : String) : String :=
  let parts := ["project = " ++ projectKey]
  let parts :=
    match lastSync with
    | some ts =>
      if ts = "" then parts
      else parts ++
        ["updated > '" ++ optPyStr (format_jira_timestamp parse profile tzdb ts) ++ "'"]
    | none => parts
  let parts := if jqlFilter = "" then parts else parts ++ ["(" ++ jqlFilter ++ ")"]
  pyJoin " AND " parts ++ " ORDER BY key ASC"

/-! ## Retry-with-backoff combinator -/

/-- Outcome of the `retry_with_backoff` wrapper: the wrapped result, a
re-raised exception, or the dead `return None` fall-through. -/
inductive RetryResult (ε α : Type) where
  | ok (a : α)
  | raised (e : ε)
  | fellThrough

/-- Loop body of `retry_with_backoff` (src/sync.py:141-169): `i` is
the current attempt index, the fuel counts the remaining iterations of
`for i in range(retries)`.  Returns (outcome, number of invocations,
backoff waits issued between attempts). -/
def retryAux (op : Nat → Except ε α) (backoff retries : Nat) :
    Nat → Nat → RetryResult ε α × Nat × List Nat
  | _, 0 => (.fellThrough, 0, [])
  | i, remaining + 1 =>
    match op i with
    | .ok a => (.ok a, 1, [])
    | .error e =>
      if i = retries - 1 then (.raised e, 1, [])
      else
        let r := retryAux op backoff retries (i + 1) remaining
        (r.1, r.2.1 + 1, backoff * 2 ^ i :: r.2.2)

/-- Mirrors `retry_with_backoff(retries, backoff_in_seconds)` applied
to an operation whose `i`-th invocation outcome is `op i`. -/
def retry_with_backoff (retries backoff : Nat) (op : Nat → Except ε α) :
    RetryResult ε α × Nat × List Nat :=
  retryAux op backoff retries 0 retries

/-! ## Basic lemmas about the association-list primitives -/

theorem alookup_nil (k : String) : alookup ([] : List (String × α)) k = none := rfl

theorem alookup_cons (k' : String) (v : α) (l : List (String × α)) (k : String) :
    alookup ((k', v) :: l) k = if k' = k then some v else alookup l k := rfl

theorem alookup_append_of_some {l₁ : List (String × α)} {k : String} {v : α}
    (h : alookup l₁ k = some v) (l₂ : List (String × α)) :
    alookup (l₁ ++ l₂) k = some v := by
  induction l₁ with
  | nil => rw [alookup_nil] at h; exact Option.noConfusion h
  | cons p l ih =>
    obtain ⟨k', v'⟩ := p
    rw [List.cons_append, alookup_cons]
    rw [alookup_cons] at h
    by_cases hk : k' = k
    · rwa [if_pos hk] at h ⊢
    · rw [if_neg hk] at h ⊢; exact ih h

theorem alookup_append_of_none {l₁ : List (String × α)} {k : String}
    (h : alookup l₁ k = none) (l₂ : List (String × α)) :
    alookup (l₁ ++ l₂) k = alookup l₂ k := by
  induction l₁ with
  | nil => rfl
  | cons p l ih =>
    obtain ⟨k', v'⟩ := p
    rw [List.cons_append, alookup_cons]
    rw [alookup_cons] at h
    by_cases hk : k' = k
    · rw [if_pos hk] at h; exact Option.noConfusion h
    · rw [if_neg hk] at h ⊢; exact ih h

theorem any_key_of_alookup_some {l : List (String × α)} {k : String} {v : α}
    (h : alookup l k = some v) : l.any (fun p => p.1 = k) = true := by
  induction l with
  | nil => rw [alookup_nil] at h; exact Option.noConfusion h
  | cons p l ih =>
    obtain ⟨k', v'⟩ := p
    rw [alookup_cons] at h
    by_cases hk : k' = k
    · simp [hk]
    · rw [if_neg hk] at h
      simp [ih h]

theorem alookup_none_of_not_any {l : List (String × α)} {k : String}
    (h : l.any (fun p => p.1 = k) = false) : alookup l k = none := by
  induction l with
  | nil => rfl
  | cons p l ih =>
    obtain ⟨k', v'⟩ := p
    simp only [List.any_cons, Bool.or_eq_false_iff, decide_eq_false_iff_not] at h
    rw [alookup_cons, if_neg h.1]
    exact ih h.2

theorem mem_of_alookup_some {l : List (String × α)} {k : String} {v : α}
    (h : alookup l k = some v) : (k, v) ∈ l := by
  induction l with
  | nil => rw [alookup_nil] at h; exact Option.noConfusion h
  | cons p l ih =>
    obtain ⟨k', v'⟩ := p
    rw [alookup_cons] at h
    by_cases hk : k' = k
    · subst hk
      rw [if_pos rfl] at h
      injection h with h
      subst h
      exact List.mem_cons_self _ _
    · rw [if_neg hk] at h
      exact List.mem_cons_of_mem _ (ih h)

theorem alookup_map_replace_ne {l : List (String × α)} {k k' : String} (v : α)
    (h : k' ≠ k) :
    alookup (l.map (fun p => if p.1 = k then (k, v) else p)) k' = alookup l k' := by
  induction l with
  | nil => rfl
  | cons p l ih =>
    obtain ⟨k₀, v₀⟩ := p
    by_cases hk : k₀ = k
    · subst hk
      have hne : k₀ ≠ k' := fun he => h he.symm
      simp [alookup_cons, hne, ih]
    · simp only [List.map_cons, if_neg hk]
      rw [alookup_cons, alookup_cons]
      by_cases hk' : k₀ = k'
      · rw [if_pos hk', if_pos hk']
      · rw [if_neg hk', if_neg hk']; exact ih

theorem alookup_map_replace_eq {l : List (String × α)} {k : String} (v : α)
    (h : l.any (fun p => p.1 = k) = true) :
    alookup (l.map (fun p => if p.1 = k then (k, v) else p)) k = some v := by
  induction l with
  | nil => simp at h
  | cons p l ih =>
    obtain ⟨k₀, v₀⟩ := p
    by_cases hk : k₀ = k
    · subst hk
      simp [alookup_cons]
    · simp only [List.any_cons, Bool.or_eq_true, decide_eq_true_eq] at h
      rcases h with h | h
      · exact absurd h hk
      · simp only [List.map_cons, if_neg hk]
        rw [alookup_cons, if_neg hk]
        exact ih h

theorem alookup_insertOverwrite (l : List (String × α)) (k : String) (v : α) (k' : String) :
    alookup (insertOverwrite l k v) k' = if k' = k then some v else alookup l k' := by
  unfold insertOverwrite
  by_cases hany : l.any (fun p => p.1 = k) = true
  · rw [if_pos hany]
    by_cases hk : k' = k
    · subst hk; rw [if_pos rfl]; exact alookup_map_replace_eq v hany
    · rw [if_neg hk]; exact alookup_map_replace_ne v hk
  · have hany' : l.any (fun p => p.1 = k) = false := by
      revert hany
      cases l.any (fun p => p.1 = k) <;> simp
    rw [if_neg (by rw [hany']; exact Bool.false_ne_true)]
    by_cases hk : k' = k
    · subst hk
      rw [if_pos rfl, alookup_append_of_none (alookup_none_of_not_any hany')]
      rw [alookup_cons, if_pos rfl]
    · rw [if_neg hk]
      cases hsome : alookup l k' with
      | some w => exact alookup_append_of_some hsome _
      | none =>
        rw [alookup_append_of_none hsome, alookup_cons,
          if_neg (fun he : k = k' => hk he.symm)]
        rfl

theorem map_fst_replace (l : List (String × α)) (k : String) (v : α) :
    (l.map (fun p => if p.1 = k then (k, v) else p)).map Prod.fst = l.map Prod.fst := by
  induction l with
  | nil => rfl
  | cons p l ih =>
    obtain ⟨k₀, v₀⟩ := p
    by_cases hk : k₀ = k
    · subst hk; simp only [List.map_cons, if_pos rfl, if_true]; rw [ih]
    · simp only [List.map_cons, if_neg hk]; rw [ih]

theorem insertOverwrite_keys_nodup {l : List (String × α)} {k : String} (v : α)
    (h : (l.map Prod.fst).Nodup) : ((insertOverwrite l k v).map Prod.fst).Nodup := by
  unfold insertOverwrite
  by_cases hany : l.any (fun p => p.1 = k) = true
  · rw [if_pos hany, map_fst_replace]; exact h
  · have hany' : l.any (fun p => p.1 = k) = false := by
      revert hany
      cases l.any (fun p => p.1 = k) <;> simp
    rw [if_neg (by rw [hany']; exact Bool.false_ne_true)]
    have hk : ∀ p ∈ l, p.1 ≠ k := by
      intro p hp he
      have : l.any (fun q => q.1 = k) = true := by
        simp only [List.any_eq_true, decide_eq_true_eq]
        exact ⟨p, hp, he⟩
      rw [hany'] at this
      exact Bool.false_ne_true this
    rw [List.map_append]
    rw [List.nodup_append]
    refine ⟨h, List.nodup_singleton _, ?_⟩
    intro a ha hb
    simp only [List.map_cons, List.map_nil, List.mem_singleton] at hb
    subst hb
    simp only [List.mem_map] at ha
    obtain ⟨p, hp, hpk⟩ := ha
    exact hk p hp hpk

theorem alookup_eq_of_mem_nodup {l : List (String × α)} {k : String} {v : α}
    (hnd : (l.map Prod.fst).Nodup) (h : (k, v) ∈ l) : alookup l k = some v := by
  induction l with
  | nil => simp at h
  | cons p l ih =>
    obtain ⟨k₀, v₀⟩ := p
    simp only [List.map_cons, List.nodup_cons] at hnd
    rcases List.mem_cons.mp h with heq | hmem
    · simp only [Prod.mk.injEq] at heq
      obtain ⟨hk, hv⟩ := heq
      subst hk; subst hv
      rw [alookup_cons, if_pos rfl]
    · have hk : k₀ ≠ k := by
        intro he; subst he
        exact hnd.1 (List.mem_map.mpr ⟨(k₀, v), hmem, rfl⟩)
      rw [alookup_cons, if_neg hk]
      exact ih hnd.2 hmem

theorem map_replace_id {l : List (String × α)} {k : String} {v : α}
    (hnd : (l.map Prod.fst).Nodup) (h : alookup l k = some v) :
    l.map (fun p => if p.1 = k then (k, v) else p) = l := by
  induction l with
  | nil => rfl
  | cons p l ih =>
    obtain ⟨k₀, v₀⟩ := p
    simp only [List.map_cons, List.nodup_cons] at hnd
    rw [alookup_cons] at h
    by_cases hk : k₀ = k
    · subst hk
      rw [if_pos rfl] at h
      injection h with hv
      subst hv
      simp only [List.map_cons, if_pos rfl, if_true, List.cons.injEq, true_and]
      have : ∀ p ∈ l, (fun p => if p.1 = k₀ then (k₀, v₀) else p) p = id p := by
        intro p hp
        have hne : p.1 ≠ k₀ := by
          intro he
          exact hnd.1 (List.mem_map.mpr ⟨p, hp, he⟩)
        simp [hne]
      rw [List.map_congr_left this, List.map_id]
    · rw [if_neg hk] at h
      simp only [List.map_cons, if_neg hk, List.cons.injEq, true_and]
      exact ih hnd.2 h

theorem insertOverwrite_self {l : List (String × α)} {k : String} {v : α}
    (hnd : (l.map Prod.fst).Nodup) (h : alookup l k = some v) :
    insertOverwrite l k v = l := by
  unfold insertOverwrite
  rw [if_pos (any_key_of_alookup_some h)]
  exact map_replace_id hnd h

theorem mergeFields_noop {fs : Payload} (hnd : (fs.map Prod.fst).Nodup) :
    ∀ upd : Payload, (∀ kv ∈ upd, alookup fs kv.1 = some kv.2) → mergeFields fs upd = fs := by
  intro upd
  induction upd with
  | nil => intro _; rfl
  | cons kv upd ih =>
    intro h
    obtain ⟨k, v⟩ := kv
    have h1 : alookup fs k = some v := h (k, v) (List.mem_cons_self _ _)
    unfold mergeFields at ih ⊢
    simp only [List.foldl_cons]
    rw [insertOverwrite_self hnd h1]
    exact ih (fun kv hkv => h kv (List.mem_cons_of_mem _ hkv))

theorem recId_injective {m n : Nat} (h : recId m = recId n) : m = n := by
  have hlen : (recId m).length = (recId n).length := by rw [h]
  unfold recId at hlen
  simp only [String.length_append] at hlen
  have h1 : (String.mk (List.replicate m 'x')).length = m := by
    simp [String.length]
  have h2 : (String.mk (List.replicate n 'x')).length = n := by
    simp [String.length]
  omega

theorem chunksOfAux_flatten {n : Nat} (hn : 0 < n) :
    ∀ (fuel : Nat) (l : List α), l.length ≤ fuel → (chunksOfAux n fuel l).flatten = l := by
  intro fuel
  induction fuel with
  | zero =>
    intro l hl
    cases l with
    | nil => rfl
    | cons x xs => simp at hl
  | succ fuel ih =>
    intro l hl
    cases l with
    | nil => rfl
    | cons x xs =>
      simp only [chunksOfAux, List.flatten_cons]
      have hdrop : (List.drop n (x :: xs)).length ≤ fuel := by
        rw [List.length_drop]
        simp only [List.length_cons] at hl ⊢
        omega
      rw [ih _ hdrop]
      exact List.take_append_drop n (x :: xs)

theorem chunksOf_flatten {n : Nat} (hn : 0 < n) (l : List α) : (chunksOf n l).flatten = l := by
  unfold chunksOf
  rw [if_neg (Nat.pos_iff_ne_zero.mp hn)]
  exact chunksOfAux_flatten hn l.length l le_rfl

/-! ## Helper lemmas about extraction and conversion -/

theorem mergeFields_lookup_none {f : String} :
    ∀ (upd fs : Payload), alookup upd f = none →
      alookup (mergeFields fs upd) f = alookup fs f := by
  intro upd
  induction upd with
  | nil => intro fs _; rfl
  | cons kv upd ih =>
    intro fs h
    obtain ⟨k, v⟩ := kv
    rw [alookup_cons] at h
    by_cases hk : k = f
    · rw [if_pos hk] at h; exact Option.noConfusion h
    · rw [if_neg hk] at h
      unfold mergeFields at ih ⊢
      simp only [List.foldl_cons]
      rw [ih _ h, alookup_insertOverwrite, if_neg (fun he : f = k => hk he.symm)]

theorem convert_obj_fold_lookup_none (issue : JiraIssue) (fld : String) :
    ∀ (l : List (String × FieldMappingInfo)) (acc : Payload),
      alookup acc fld = none →
      (∀ kv ∈ l, kv.2.airtable_field_id = fld →
        kv.1 = "parent" ∨ get_issue_field_value issue kv.1 = none) →
      alookup
        (l.foldl
          (fun acc kv =>
            if kv.1 = "parent" then acc
            else
              match get_issue_field_value issue kv.1 with
              | some v => insertOverwrite acc kv.2.airtable_field_id v
              | none => acc) acc) fld = none := by
  intro l
  induction l with
  | nil => intro acc hacc _; exact hacc
  | cons kv l ih =>
    intro acc hacc hl
    simp only [List.foldl_cons]
    by_cases hpar : kv.1 = "parent"
    · rw [if_pos hpar]
      exact ih acc hacc (fun kv' h' => hl kv' (List.mem_cons_of_mem _ h'))
    · rw [if_neg hpar]
      cases hval : get_issue_field_value issue kv.1 with
      | none => exact ih acc hacc (fun kv' h' => hl kv' (List.mem_cons_of_mem _ h'))
      | some v =>
        have hid : kv.2.airtable_field_id ≠ fld := by
          intro he
          rcases hl kv (List.mem_cons_self _ _) he with h | h
          · exact hpar h
          · rw [hval] at h; exact Option.noConfusion h
        have hacc' : alookup (insertOverwrite acc kv.2.airtable_field_id v) fld = none := by
          rw [alookup_insertOverwrite, if_neg (fun he => hid he.symm)]
          exact hacc
        exact ih _ hacc' (fun kv' h' => hl kv' (List.mem_cons_of_mem _ h'))

/-! ## Claim C7 — field-value extraction precedence (corrected) -/

/-- Modelled from the claim's words for the list branch of extraction:
each element is mapped through the `.value`-then-`.name` rule on its
own, independently of the other elements. -/
def spec_list_rule (elems : List JField) : List (Option String) :=
  elems.map (fun e =>
    match getValueAttr e with
    | some v => some v
    | none => getNameAttr e)

/-- Claim C7 counterexample: on the list
`[x.name = "a"; y.value = "b", y.name = "c"]` the code dispatches on
the FIRST element only and maps `.name` over the whole list, yielding
`["a", "c"]`, while the claimed per-element rule yields `["a", "b"]`. -/
theorem c7_extraction_precedence_cex :
    process_field_value
        (.list [.obj none (some "a") none, .obj (some "b") (some "c") none])
      = .ok (some (.strList ["a", "c"]))
    ∧ spec_list_rule [.obj none (some "a") none, .obj (some "b") (some "c") none]
      = [some "a", some "b"]
    ∧ (["a", "c"] : List String) ≠ ["a", "b"] :=
  ⟨rfl, rfl, by decide⟩

/-- Claim C7 amended: extraction precedence is scalar as-is, then
`.value`, then `.name`, then the list branch, then `.displayName`,
then stringification — but the list branch dispatches on the FIRST
element only: if it has `.value` (resp. `.name`), that attribute is
mapped over every element (an element lacking it raises, which the
caller catches as `None`); otherwise the list is returned unchanged.
In particular an object exposing both `.value` and `.name` extracts to
`.value`. -/
theorem c7_extraction_precedence_amended :
    (∀ s, process_field_value (.str s) = .ok (some (.s s)))
    ∧ (∀ n, process_field_value (.int n) = .ok (some (.i n)))
    ∧ (∀ b, process_field_value (.bool b) = .ok (some (.b b)))
    ∧ (∀ v n d, process_field_value (.obj (some v) n d) = .ok (some (.s v)))
    ∧ (∀ n d, process_field_value (.obj none (some n) d) = .ok (some (.s n)))
    ∧ (∀ d, process_field_value (.obj none none (some d)) = .ok (some (.s d)))
    ∧ process_field_value (.obj none none none)
        = .ok (some (.stringified (.obj none none none)))
    ∧ process_field_value (.list []) = .ok none
    ∧ (∀ h t, (getValueAttr h).isSome = true →
        process_field_value (.list (h :: t)) =
          (match (h :: t).mapM getValueAttr with
           | some vs => .ok (some (.strList vs))
           | none => .error ()))
    ∧ (∀ h t, (getValueAttr h).isSome = false → (getNameAttr h).isSome = true →
        process_field_value (.list (h :: t)) =
          (match (h :: t).mapM getNameAttr with
           | some vs => .ok (some (.strList vs))
           | none => .error ()))
    ∧ (∀ h t, (getValueAttr h).isSome = false → (getNameAttr h).isSome = false →
        process_field_value (.list (h :: t)) = .ok (some (.rawList (h :: t)))) := by
  refine ⟨fun s => rfl, fun n => rfl, fun b => rfl, fun v n d => rfl,
    fun n d => rfl, fun d => rfl, rfl, rfl, ?_, ?_, ?_⟩
  · intro h t hv
    simp only [process_field_value, hv, if_true]
  · intro h t hv hn
    simp only [process_field_value, hv, hn, Bool.false_eq_true, if_false, if_true]
  · intro h t hv hn
    simp only [process_field_value, hv, hn, Bool.false_eq_true, if_false]

/-- Claim C7 witness: the amended precedence applied to concrete
inputs for each hypothesis-guarded branch. -/
theorem c7_extraction_precedence_amended_witness :
    process_field_value (.list [.obj (some "x") (some "y") none])
      = .ok (some (.strList ["x"]))
    ∧ process_field_value (.list [.obj none (some "y") none])
      = .ok (some (.strList ["y"]))
    ∧ process_field_value (.list [.str "z"]) = .ok (some (.rawList [.str "z"])) := by
  refine ⟨?_, ?_, ?_⟩
  · exact c7_extraction_precedence_amended.2.2.2.2.2.2.2.2.1
      (.obj (some "x") (some "y") none) [] rfl
  · exact c7_extraction_precedence_amended.2.2.2.2.2.2.2.2.2.1
      (.obj none (some "y") none) [] rfl rfl
  · exact c7_extraction_precedence_amended.2.2.2.2.2.2.2.2.2.2
      (.str "z") [] rfl rfl

/-! ## Claim C10 — empty-list extraction yields None and omits the field -/

/-- Claim C10: an empty-list raw value extracts to `None`
(`_process_field_value` returns `None` for `[]`), hence the converted
payload omits the mapped target field entirely, and a batch-update
payload that omits a field leaves that field's stored value unchanged
(it is never written as an empty array and never clears the target). -/
theorem c10_empty_list_omitted
    (ctx : SyncCtx) (issue : JiraIssue) (jf fld : String)
    (hk : jf ≠ "key") (hp : jf ≠ "parent")
    (hc1 : jf ≠ "latest_comment") (hc2 : jf ≠ "comment_author")
    (hc3 : jf ≠ "comment_updated") (hs : jf ≠ "status_updated")
    (hraw : alookup issue.fields jf = some (.list []))
    (hmap : ∀ kv ∈ ctx.fieldMappings, kv.2.airtable_field_id = fld → kv.1 = jf) :
    process_field_value (.list []) = .ok none
    ∧ get_issue_field_value issue jf = none
    ∧ alookup (convert_issue_to_record ctx (.obj issue)) fld = none
    ∧ (∀ (fs upd : Payload) , alookup upd fld = none →
        alookup (mergeFields fs upd) fld = alookup fs fld) := by
  have hext : get_issue_field_value issue jf = none := by
    unfold get_issue_field_value
    rw [if_neg hk, if_neg hp, if_neg (by simp [hc1, hc2, hc3]), if_neg hs, hraw]
    rfl
  refine ⟨rfl, hext, ?_, fun fs upd h => mergeFields_lookup_none upd fs h⟩
  unfold convert_issue_to_record
  apply convert_obj_fold_lookup_none issue fld ctx.fieldMappings [] rfl
  intro kv hkv hid
  right
  rw [hmap kv hkv hid]
  exact hext

/-- Claim C10 witness: a concrete issue whose `labels` field is an
empty list produces a payload omitting the mapped field. -/
theorem c10_empty_list_omitted_witness :
    alookup
      (convert_issue_to_record
        ⟨[("key", ⟨"fldKey", none⟩), ("labels", ⟨"fldLab", none⟩)]⟩
        (.obj ⟨"A-1", [("labels", .list [])], none, [], []⟩))
      "fldLab" = none := by
  have h := c10_empty_list_omitted
    ⟨[("key", ⟨"fldKey", none⟩), ("labels", ⟨"fldLab", none⟩)]⟩
    ⟨"A-1", [("labels", .list [])], none, [], []⟩ "labels" "fldLab"
    (by decide) (by decide) (by decide) (by decide) (by decide) (by decide)
    rfl (by decide)
  exact h.2.2.1

/-! ## Claim C2 — watermark-read failure handling (corrected) -/

/-- Claim C2 counterexample: when the watermark query fails, the read
returns the ordinary value `ok none` — the mapped `updated` field is
configured, the query errors, yet no exception propagates, so the run
proceeds as if the store were empty instead of aborting. -/
theorem c2_watermark_failure_cex :
    get_most_recent_jira_update_time ⟨[("updated", ⟨"fldUpd", some "Updated"⟩)]⟩
        [⟨"fldUpd", "Updated", "dateTime", []⟩] (.error ())
      = .ok none
    ∧ (Except.ok none : Except Unit (Option PVal)) ≠ .error () :=
  ⟨rfl, fun h => Except.noConfusion h⟩

/-- Claim C2 amended: the watermark read never raises — its body
catches every exception and returns `None` (so the retry decorator
never engages and the run silently falls back to syncing everything);
in particular a failed store query yields `ok none`. -/
theorem c2_watermark_fallback_amended :
    (∀ (ctx : SyncCtx) (schema : List ATField) (q : Except Unit (List ATRecord)),
      ∃ v, get_most_recent_jira_update_time ctx schema q = .ok v)
    ∧ (∀ (ctx : SyncCtx) (schema : List ATField) (e : Unit) (uf : String),
        get_airtable_field_name ctx "updated" = some uf → uf ≠ "" →
        get_most_recent_jira_update_time ctx schema (.error e) = .ok none) := by
  constructor
  · intro ctx schema q
    unfold get_most_recent_jira_update_time
    cases hname : get_airtable_field_name ctx "updated" with
    | none => exact ⟨none, rfl⟩
    | some uf =>
      dsimp only
      by_cases huf : uf = ""
      · rw [if_pos huf]; exact ⟨none, rfl⟩
      · rw [if_neg huf]
        rcases q with e | recs
        · exact ⟨none, rfl⟩
        · dsimp only
          rcases recs with _ | ⟨r, rest⟩
          · exact ⟨none, rfl⟩
          · dsimp only
            cases hfv : recordFieldByName schema r uf with
            | none => exact ⟨none, rfl⟩
            | some v =>
              by_cases ht : pvTruthy v = true
              · exact ⟨some v, by simp [ht]⟩
              · exact ⟨none, by simp [ht]⟩
  · intro ctx schema e uf hname huf
    unfold get_most_recent_jira_update_time
    rw [hname]
    dsimp only
    rw [if_neg huf]

/-- Claim C2 witness: the amended statement applied to a concrete
context and a failing query. -/
theorem c2_watermark_fallback_amended_witness :
    get_most_recent_jira_update_time ⟨[("updated", ⟨"fldUpd", some "Updated"⟩)]⟩
        [] (.error ()) = .ok none :=
  c2_watermark_fallback_amended.2 ⟨[("updated", ⟨"fldUpd", some "Updated"⟩)]⟩
    [] () "Updated" rfl (by decide)

/-! ## Claim C3 — schema precondition check (corrected) -/

/-- Claim C3 counterexample: with a mapped field id absent from the
schema, `validate_schema` returns the ordinary value
`(false, [message])` — no `ConfigurationError` is raised anywhere —
and engine construction (`_populate_field_names`) completes normally
on the same broken mapping instead of failing fast. -/
theorem c3_schema_validation_cex :
    validate_schema [("summary", some "fldMissing")]
        [("Tasks", [⟨"fldKey", "Key", "singleLineText", []⟩])] "Tasks"
      = (false, ["summary -> fldMissing (fldMissing)"])
    ∧ populate_field_names ⟨[("summary", ⟨"fldMissing", none⟩)]⟩
        [⟨"fldKey", "Key", "singleLineText", []⟩]
      = ⟨[("summary", ⟨"fldMissing", none⟩)]⟩ :=
  ⟨rfl, rfl⟩

/-- Claim C3 amended: schema validation lives in the standalone script
`validate_schema`, which returns `True` exactly when the mapping is
nonempty, the table is found, and every mapped entry carries a field
id present in the fetched schema — reporting (not raising) otherwise;
engine construction never validates: `_populate_field_names` preserves
every mapping's field id and always succeeds. -/
theorem c3_schema_validation_amended :
    (∀ (fieldMap : ScriptMapping) (tables : List (String × List ATField))
       (tableName : String) (tbl : String × List ATField),
       fieldMap ≠ [] → tables.find? (fun t => t.1 = tableName) = some tbl →
       ((validate_schema fieldMap tables tableName).1 = true ↔
         ∀ kv ∈ fieldMap, ∃ fid, kv.2 = some fid ∧ fid ∈ tbl.2.map (fun f => f.id)))
    ∧ (∀ (ctx : SyncCtx) (schema : List ATField),
        (populate_field_names ctx schema).fieldMappings.map
            (fun kv => (kv.1, kv.2.airtable_field_id))
          = ctx.fieldMappings.map (fun kv => (kv.1, kv.2.airtable_field_id))) := by
  constructor
  · intro fieldMap tables tableName tbl hne hfind
    unfold validate_schema
    rw [if_neg (by simpa using hne), hfind]
    have key : ∀ (l : ScriptMapping) (acc : List String),
        (l.foldl
          (fun acc kv =>
            match kv.2 with
            | none => acc ++ [kv.1 ++ " -> missing airtable_field_id"]
            | some fid =>
              if (tbl.2.map (fun f => f.id)).contains fid then acc
              else
                acc ++ [kv.1 ++ " -> " ++
                  (match tbl.2.find? (fun f => f.id = fid) with
                   | some f => f.name
                   | none => fid) ++ " (" ++ fid ++ ")"]) acc) = []
        ↔ (acc = [] ∧ ∀ kv ∈ l, ∃ fid, kv.2 = some fid ∧
            fid ∈ tbl.2.map (fun f => f.id)) := by
      intro l
      induction l with
      | nil => intro acc; simp
      | cons kv l ih =>
        intro acc
        simp only [List.foldl_cons]
        obtain ⟨jf, fid?⟩ := kv
        cases fid? with
        | none =>
          rw [ih]
          constructor
          · rintro ⟨hacc, -⟩
            exact absurd hacc (by simp)
          · rintro ⟨hacc, hall⟩
            obtain ⟨fid, hfid, -⟩ := hall (jf, none) (List.mem_cons_self _ _)
            exact Option.noConfusion hfid
        | some fid =>
          dsimp only
          by_cases hmem : (tbl.2.map (fun f => f.id)).contains fid = true
          · rw [if_pos hmem, ih]
            have hmem' : fid ∈ tbl.2.map (fun f => f.id) := by
              simpa using hmem
            constructor
            · rintro ⟨hacc, hall⟩
              refine ⟨hacc, fun kv' hkv' => ?_⟩
              rcases List.mem_cons.mp hkv' with heq | hm
              · subst heq; exact ⟨fid, rfl, hmem'⟩
              · exact hall kv' hm
            · rintro ⟨hacc, hall⟩
              exact ⟨hacc, fun kv' hkv' => hall kv' (List.mem_cons_of_mem _ hkv')⟩
          · rw [if_neg hmem, ih]
            constructor
            · rintro ⟨hacc, -⟩
              exact absurd hacc (by simp)
            · rintro ⟨hacc, hall⟩
              obtain ⟨fid', hfid', hmem'⟩ := hall (jf, some fid) (List.mem_cons_self _ _)
              injection hfid' with hfid'
              subst hfid'
              exact absurd (by simpa using hmem') hmem
    dsimp only
    rw [List.isEmpty_iff, key]
    simp
  · intro ctx schema
    unfold populate_field_names
    dsimp only
    rw [List.map_map]
    apply List.map_congr_left
    intro kv _
    obtain ⟨jf, info⟩ := kv
    by_cases hname : info.airtable_field_name.isSome = true
    · simp [hname, Function.comp]
    · by_cases hupd : jf = "updated" <;>
        simp [hname, hupd, Function.comp]

/-- Claim C3 witness: applying the amended statement to a concrete
complete mapping yields a passing validation. -/
theorem c3_schema_validation_amended_witness :
    (validate_schema [("key", some "fldKey")]
        [("Tasks", [⟨"fldKey", "Key", "singleLineText", []⟩])] "Tasks").1 = true := by
  apply (c3_schema_validation_amended.1 [("key", some "fldKey")]
    [("Tasks", [⟨"fldKey", "Key", "singleLineText", []⟩])] "Tasks"
    ("Tasks", [⟨"fldKey", "Key", "singleLineText", []⟩]) (by decide) rfl).mpr
  intro kv hkv
  obtain rfl := List.mem_singleton.mp hkv
  exact ⟨"fldKey", rfl, by decide⟩

/-! ## Claim C9 — retry wrapper contract (confirmed) -/

/-- Whether a Python call raised (`Except.error`). -/
def isError : Except ε α → Bool
  | .error _ => true
  | .ok _ => false

theorem retryAux_count_le (op : Nat → Except ε α) (backoff retries : Nat) :
    ∀ (rem i : Nat), (retryAux op backoff retries i rem).2.1 ≤ rem := by
  intro rem
  induction rem with
  | zero => intro i; exact Nat.le_refl 0
  | succ rem ih =>
    intro i
    unfold retryAux
    cases op i with
    | ok a => exact Nat.le_add_left 1 rem
    | error e =>
      dsimp only
      by_cases hi : i = retries - 1
      · rw [if_pos hi]; exact Nat.le_add_left 1 rem
      · rw [if_neg hi]
        exact Nat.succ_le_succ (ih (i + 1))

theorem retryAux_success (op : Nat → Except ε α) (backoff retries k : Nat) (a : α)
    (hk : k < retries) (hok : op k = .ok a)
    (hfail : ∀ j, j < k → isError (op j) = true) :
    ∀ (rem i : Nat), i + rem = retries → i ≤ k →
      retryAux op backoff retries i rem =
        (.ok a, k - i + 1, (List.range' i (k - i)).map (fun j => backoff * 2 ^ j)) := by
  intro rem
  induction rem with
  | zero =>
    intro i htot hik
    omega
  | succ rem ih =>
    intro i htot hik
    unfold retryAux
    by_cases hieq : i = k
    · subst hieq
      rw [hok]
      simp
    · have hilt : i < k := Nat.lt_of_le_of_ne hik hieq
      have herr : isError (op i) = true := hfail i hilt
      cases hop : op i with
      | ok b => rw [hop] at herr; exact Bool.noConfusion herr
      | error e =>
        dsimp only
        have hine : i ≠ retries - 1 := by omega
        rw [if_neg hine]
        rw [ih (i + 1) (by omega) hilt]
        have hki : k - i = (k - (i + 1)) + 1 := by omega
        rw [hki, List.range'_succ]
        rfl

theorem retryAux_exhaust (op : Nat → Except ε α) (backoff retries : Nat)
    (hfail : ∀ j, j < retries → isError (op j) = true) :
    ∀ (rem i : Nat), i + rem = retries → i < retries →
      ∃ e, op (retries - 1) = .error e ∧
        retryAux op backoff retries i rem =
          (.raised e, retries - i,
            (List.range' i (retries - 1 - i)).map (fun j => backoff * 2 ^ j)) := by
  intro rem
  induction rem with
  | zero => intro i htot hi; omega
  | succ rem ih =>
    intro i htot hi
    have herr : isError (op i) = true := hfail i hi
    cases hop : op i with
    | ok b => rw [hop] at herr; exact Bool.noConfusion herr
    | error e =>
      by_cases hlast : i = retries - 1
      · refine ⟨e, by rw [← hlast]; exact hop, ?_⟩
        unfold retryAux
        rw [hop]
        dsimp only
        rw [if_pos hlast]
        have h1 : retries - i = 1 := by omega
        have h2 : retries - 1 - i = 0 := by omega
        rw [h1, h2]
        rfl
      · obtain ⟨e', hop', heq⟩ := ih (i + 1) (by omega) (by omega)
        refine ⟨e', hop', ?_⟩
        unfold retryAux
        rw [hop]
        dsimp only
        rw [if_neg hlast, heq]
        have h1 : retries - (i + 1) + 1 = retries - i := by omega
        have h2 : retries - 1 - i = (retries - 1 - (i + 1)) + 1 := by omega
        rw [h1, h2, List.range'_succ]
        rfl

/-- Claim C9: the retry wrapper invokes the operation at most `retries`
times; a success at attempt `k` (after `k` failures) is returned
immediately as the result of exactly `k + 1` invocations, with waits of
exactly `backoff * 2 ^ i` seconds after the `i`-th failure; and when
all `retries` invocations raise, the wrapper re-raises the last
exception instead of returning a value. -/
theorem c9_retry_contract (op : Nat → Except ε α) (retries backoff : Nat) :
    (retry_with_backoff retries backoff op).2.1 ≤ retries
    ∧ (∀ k a, k < retries → (∀ j, j < k → isError (op j) = true) → op k = .ok a →
        retry_with_backoff retries backoff op =
          (.ok a, k + 1, (List.range k).map (fun i => backoff * 2 ^ i)))
    ∧ (0 < retries → (∀ j, j < retries → isError (op j) = true) →
        ∃ e, op (retries - 1) = .error e ∧
          retry_with_backoff retries backoff op =
            (.raised e, retries, (List.range (retries - 1)).map (fun i => backoff * 2 ^ i))) := by
  refine ⟨retryAux_count_le op backoff retries retries 0, ?_, ?_⟩
  · intro k a hk hfail hok
    have h := retryAux_success op backoff retries k a hk hok hfail retries 0
      (Nat.zero_add retries) (Nat.zero_le k)
    rw [List.range_eq_range']
    simpa using h
  · intro hpos hfail
    obtain ⟨e, hop, heq⟩ := retryAux_exhaust op backoff retries hfail retries 0
      (Nat.zero_add retries) hpos
    refine ⟨e, hop, ?_⟩
    rw [List.range_eq_range']
    simpa using heq

/-- Claim C9 witness: with ceiling 3 and base 1, an operation that
fails twice then succeeds is invoked 3 times with waits `[1, 2]` and
returns its value; an operation that always fails is invoked 3 times
and re-raises the last exception. -/
theorem c9_retry_contract_witness :
    retry_with_backoff 3 1 (fun i => if i < 2 then Except.error i else Except.ok 42)
      = (.ok 42, 3, [1, 2])
    ∧ retry_with_backoff 3 1 (fun i => (Except.error i : Except Nat Nat))
      = (.raised 2, 3, [1, 2]) := by
  constructor
  · have h := (c9_retry_contract
      (fun i => if i < 2 then Except.error i else Except.ok 42) 3 1).2.1 2 42
      (by decide) (by decide) (by rfl)
    simpa using h
  · obtain ⟨e, hop, heq⟩ := (c9_retry_contract
      (fun i => (Except.error i : Except Nat Nat)) 3 1).2.2 (by decide) (by decide)
    have he : (Except.error 2 : Except Nat Nat) = .error e := hop
    injection he with he'
    subst he'
    simpa using heq

/-! ## Claim C8 — JQL query composition (confirmed) -/

/-- Claim C8: the fetch composes
`project = PK [AND updated > 'w'] [AND (filter)] ORDER BY key ASC`,
where the `updated >` clause appears exactly for a (truthy, parseable)
watermark, formatted at minute granularity after conversion into the
timezone discovered from the user profile (falling back to UTC when
the profile lookup fails or carries no timezone). -/
theorem c8_query_composition (pk ts f : String) (parse : String → Option Int)
    (profile : Except Unit (Option String)) (tzdb : String → Option Int)
    (t off : Int) (hts : ts ≠ "") (hparse : parse ts = some t)
    (htz : tzdb (get_jira_timezone profile) = some off) :
    build_jql_query pk (some ts) parse profile tzdb f =
      pyJoin " AND "
          (["project = " ++ pk, "updated > '" ++ strftimeMinute t off ++ "'"] ++
            (if f = "" then [] else ["(" ++ f ++ ")"])) ++ " ORDER BY key ASC"
    ∧ build_jql_query pk none parse profile tzdb f =
      pyJoin " AND "
          (["project = " ++ pk] ++ (if f = "" then [] else ["(" ++ f ++ ")"])) ++
        " ORDER BY key ASC"
    ∧ (∀ tz, profile = .ok (some tz) → get_jira_timezone profile = tz)
    ∧ (profile = .ok none ∨ profile = .error () → get_jira_timezone profile = "UTC")
    ∧ (∀ (t₁ t₂ o : Int), (t₁ + o * 60).fdiv 60 = (t₂ + o * 60).fdiv 60 →
        strftimeMinute t₁ o = strftimeMinute t₂ o) := by
  refine ⟨?_, ?_, ?_, ?_, ?_⟩
  · by_cases hf : f = ""
    · subst hf
      simp [build_jql_query, format_jira_timestamp, hparse, htz, hts, optPyStr]
    · simp [build_jql_query, format_jira_timestamp, hparse, htz, hts, hf, optPyStr]
  · by_cases hf : f = ""
    · subst hf
      simp [build_jql_query]
    · simp [build_jql_query, hf]
  · intro tz h; rw [h]; rfl
  · rintro (h | h) <;> rw [h] <;> rfl
  · intro t₁ t₂ o h
    unfold strftimeMinute
    rw [h]

/-- Claim C8 witness: a concrete composition where the profile lookup
fails (UTC fallback, offset 0), the watermark parses to the epoch, and
an extra filter is present. -/
theorem c8_query_composition_witness :
    build_jql_query "PROJ" (some "1970-01-01T00:00:30Z") (fun _ => some 30)
        (.error ()) (fun z => if z = "UTC" then some 0 else none) "status = Done"
      = "project = PROJ AND updated > '1970-01-01 00:00' AND (status = Done) ORDER BY key ASC" := by
  have h := (c8_query_composition "PROJ" "1970-01-01T00:00:30Z" "status = Done"
    (fun _ => some 30) (.error ()) (fun z => if z = "UTC" then some 0 else none)
    30 0 (by decide) rfl rfl).1
  rw [h]
  rfl

/-! ## Claim C6 — partial-failure isolation in batch create (confirmed) -/

/-- Create every payload in order (the per-record fallback path). -/
def createAll (t : ATable) (ps : List Payload) : ATable :=
  ps.foldl (fun t p => (createOne t p).1) t

theorem createAll_schema (ps : List Payload) :
    ∀ t : ATable, (createAll t ps).schema = t.schema := by
  induction ps with
  | nil => intro t; rfl
  | cons p ps ih => intro t; exact ih (createOne t p).1

theorem createAll_records_length (ps : List Payload) :
    ∀ t : ATable, (createAll t ps).records.length = t.records.length + ps.length := by
  induction ps with
  | nil => intro t; rfl
  | cons p ps ih =>
    intro t
    unfold createAll at ih ⊢
    simp only [List.foldl_cons]
    rw [ih]
    simp [createOne]
    omega

theorem bcwp_fold (S : List ATField) :
    ∀ (ps : List Payload) (t : ATable) (cnt : Nat) (failed : List Payload),
      t.schema = S →
      ps.foldl
        (fun acc p =>
          let (t, cnt, failed) := acc
          if payloadValid t.schema p then ((createOne t p).1, cnt + 1, failed)
          else (t, cnt, failed ++ [p]))
        (t, cnt, failed)
      = (createAll t (ps.filter (fun p => payloadValid S p)),
         cnt + (ps.filter (fun p => payloadValid S p)).length,
         failed ++ ps.filter (fun p => !(payloadValid S p))) := by
  intro ps
  induction ps with
  | nil =>
    intro t cnt failed hS
    simp [createAll]
  | cons p ps ih =>
    intro t cnt failed hS
    simp only [List.foldl_cons]
    by_cases hv : payloadValid t.schema p = true
    · have hvS : payloadValid S p = true := by rw [← hS]; exact hv
      rw [if_pos hv]
      rw [ih (createOne t p).1 (cnt + 1) failed hS]
      simp only [List.filter_cons, hvS, if_true]
      have : payloadValid S p = true → ((!payloadValid S p) = false) := by
        intro h; rw [h]; rfl
      simp [createAll, hvS]
      omega
    · have hv' : payloadValid t.schema p = false := by
        cases h : payloadValid t.schema p
        · rfl
        · exact absurd h hv
      have hvS : payloadValid S p = false := by rw [← hS]; exact hv'
      rw [if_neg hv]
      rw [ih t cnt (failed ++ [p]) hS]
      simp [List.filter_cons, hvS]

/-- Claim C6: a 3-payload create batch with exactly one store-rejected
payload reports exactly 2 successes and exactly 1 failure — the failed
payload itself (which carries its identity-key field) — raises nothing
(the function is total), and still creates the remaining records, so
later work of the run proceeds. -/
theorem c6_partial_failure_isolation (t : ATable) (ps : List Payload)
    (hlen : ps.length = 3)
    (hone : ps.countP (fun p => !(payloadValid t.schema p)) = 1) :
    (batch_create_with_progress t ps).2.1 = 2
    ∧ (batch_create_with_progress t ps).2.2
        = ps.filter (fun p => !(payloadValid t.schema p))
    ∧ (batch_create_with_progress t ps).2.2.length = 1
    ∧ (batch_create_with_progress t ps).1.records.length = t.records.length + 2 := by
  have hval : (ps.filter (fun p => payloadValid t.schema p)).length = 2 := by
    have h := List.length_eq_length_filter_add (l := ps)
      (fun p => payloadValid t.schema p)
    rw [List.countP_eq_length_filter] at hone
    have hcongr : ps.filter (fun p => !(payloadValid t.schema p))
        = ps.filter (fun p => !(payloadValid t.schema p) = true) := by
      apply List.filter_congr
      intro a _
      simp
    omega
  have hnotall : ps.all (fun p => payloadValid t.schema p) = false := by
    cases hall : ps.all (fun p => payloadValid t.schema p)
    · rfl
    · exfalso
      rw [List.countP_eq_length_filter] at hone
      have : ps.filter (fun p => !(payloadValid t.schema p)) = [] := by
        apply List.filter_eq_nil_iff.mpr
        intro a ha
        rw [List.all_eq_true] at hall
        simp [hall a ha]
      rw [this] at hone
      simp at hone
  unfold batch_create_with_progress
  rw [if_neg (by rw [hnotall]; exact Bool.false_ne_true)]
  rw [bcwp_fold t.schema ps t 0 [] rfl]
  refine ⟨by simpa using hval, by simp, ?_, ?_⟩
  · simp only [List.nil_append]
    rw [← List.countP_eq_length_filter]
    exact hone
  · rw [createAll_records_length, hval]

/-- Claim C6 witness: a concrete batch of 3 against a select-typed
schema where the middle payload carries an unknown option. -/
theorem c6_partial_failure_isolation_witness :
    (batch_create_with_progress
        ⟨[⟨"fldKey", "Key", "singleLineText", []⟩,
          ⟨"fldStatus", "Status", "singleSelect", ["Open", "Closed"]⟩], [], 0, 0⟩
        [[("fldKey", .s "B-1"), ("fldStatus", .s "Open")],
         [("fldKey", .s "B-2"), ("fldStatus", .s "Bogus")],
         [("fldKey", .s "B-3"), ("fldStatus", .s "Closed")]]).2.1 = 2
    ∧ (batch_create_with_progress
        ⟨[⟨"fldKey", "Key", "singleLineText", []⟩,
          ⟨"fldStatus", "Status", "singleSelect", ["Open", "Closed"]⟩], [], 0, 0⟩
        [[("fldKey", .s "B-1"), ("fldStatus", .s "Open")],
         [("fldKey", .s "B-2"), ("fldStatus", .s "Bogus")],
         [("fldKey", .s "B-3"), ("fldStatus", .s "Closed")]]).2.2.length = 1 := by
  have h := c6_partial_failure_isolation
    ⟨[⟨"fldKey", "Key", "singleLineText", []⟩,
      ⟨"fldStatus", "Status", "singleSelect", ["Open", "Closed"]⟩], [], 0, 0⟩
    [[("fldKey", .s "B-1"), ("fldStatus", .s "Open")],
     [("fldKey", .s "B-2"), ("fldStatus", .s "Bogus")],
     [("fldKey", .s "B-3"), ("fldStatus", .s "Closed")]]
    (by rfl) (by rfl)
  exact ⟨h.1, h.2.2.1⟩

/-! ## Claim C4 — select-option remediation (code bug: never invoked) -/

/-- Claim C4: the write path performs NO schema-patch call and NO chunk
retry when a chunk fails on an unknown select option — the rejected
record simply lands in the failure list and the schema keeps its old
choices.  The dead helper `add_select_option` would add the missing
choice (without duplicating an existing one), but nothing in the
writer ever calls it. -/
theorem c4_select_option_never_patched :
    (batch_create_with_progress
        ⟨[⟨"fldStatus", "Status", "singleSelect", ["Open", "Closed"]⟩], [], 0, 0⟩
        [[("fldStatus", .s "Open")], [("fldStatus", .s "New")]]).1.patchCalls = 0
    ∧ (batch_create_with_progress
        ⟨[⟨"fldStatus", "Status", "singleSelect", ["Open", "Closed"]⟩], [], 0, 0⟩
        [[("fldStatus", .s "Open")], [("fldStatus", .s "New")]]).1.schema
      = [⟨"fldStatus", "Status", "singleSelect", ["Open", "Closed"]⟩]
    ∧ (batch_create_with_progress
        ⟨[⟨"fldStatus", "Status", "singleSelect", ["Open", "Closed"]⟩], [], 0, 0⟩
        [[("fldStatus", .s "Open")], [("fldStatus", .s "New")]]).2.2
      = [[("fldStatus", .s "New")]]
    ∧ (add_select_option
        ⟨[⟨"fldStatus", "Status", "singleSelect", ["Open", "Closed"]⟩], [], 0, 0⟩
        "Status" "New").patchCalls = 1
    ∧ (add_select_option
        ⟨[⟨"fldStatus", "Status", "singleSelect", ["Open", "Closed"]⟩], [], 0, 0⟩
        "Status" "Open").patchCalls = 0 :=
  ⟨rfl, rfl, rfl, rfl, rfl⟩

/-! ## Concrete fixtures for the whole-pipeline claims -/

/-- Example Airtable schema with key, summary, updated and parent-link
fields. -/
def schemaEx : List ATField := [
  ⟨"fldKey", "Key", "singleLineText", []⟩,
  ⟨"fldSum", "Summary", "singleLineText", []⟩,
  ⟨"fldUpd", "Updated", "dateTime", []⟩,
  ⟨"fldPar", "Parent", "multipleRecordLinks", []⟩]

/-- Field mappings with Airtable field names supplied in the config. -/
def ctxNamedEx : SyncCtx := ⟨[
  ("key", ⟨"fldKey", some "Key"⟩),
  ("summary", ⟨"fldSum", some "Summary"⟩),
  ("updated", ⟨"fldUpd", some "Updated"⟩),
  ("parent", ⟨"fldPar", some "Parent"⟩)]⟩

/-- Field mappings as a default configuration supplies them: ids only,
no Airtable field names. -/
def ctxRawEx : SyncCtx := ⟨[
  ("key", ⟨"fldKey", none⟩),
  ("summary", ⟨"fldSum", none⟩),
  ("updated", ⟨"fldUpd", none⟩)]⟩

/-- A parent issue with no cross-reference. -/
def issueA1 : JiraIssue :=
  ⟨"A-1", [("summary", .str "parent issue"),
           ("updated", .str "2024-01-01T00:00:00.000+0000")], none, [], []⟩

/-- A child issue whose `parent` points at `A-1`. -/
def issueA2 : JiraIssue :=
  ⟨"A-2", [("summary", .str "child issue"),
           ("updated", .str "2024-01-02T00:00:00.000+0000")], some "A-1", [], []⟩

/-- An empty Airtable table over `schemaEx`. -/
def tEmptyEx : ATable := ⟨schemaEx, [], 0, 0⟩

/-! ## Claim C1 — two-pass parent linking (code bug: link never written) -/

/-- Claim C1 evaluated at its failing input: syncing parent `A-1` and
child `A-2` (cross-reference `A-1`) into an empty store creates both
records in the same run, yet the child's cross-reference field
`fldPar` ends up absent — not `[<id of A-1's record>]` — because the
id map used by the parent pass was computed before the creates and the
converted dicts no longer carry the parent key.  The parent mapping
and the child's cross-reference are both present, so the claimed
second-pass resolution had everything it needed. -/
theorem c1_two_pass_linking_failing :
    (sync_issues ctxNamedEx tEmptyEx [issueA1, issueA2] 50).records.map
        (fun r => (r.id, alookup r.fields "fldKey", alookup r.fields "fldPar"))
      = [("rec", some (.s "A-1"), none), ("recx", some (.s "A-2"), none)]
    ∧ extract_parent_key ctxNamedEx (.obj issueA2) = some "A-1"
    ∧ get_airtable_field_id ctxNamedEx "parent" = some "fldPar"
    ∧ alookup
        (get_existing_record_ids ctxNamedEx
          (sync_issues ctxNamedEx tEmptyEx [issueA1, issueA2] 50) ["A-1"]) "A-1"
      = some "rec" :=
  ⟨rfl, rfl, rfl, rfl⟩

/-! ## Claim C5 — idempotence of sync (corrected) -/

/-- Claim C5 counterexample: with a default configuration (no Airtable
field names in the mapping), `_populate_field_names` leaves the `key`
mapping without a name, `_get_existing_record_ids` therefore matches
nothing, and a second run over the unchanged source duplicates every
record: 1 record after the first run, 2 after the second. -/
theorem c5_idempotence_cex :
    (sync_issues (populate_field_names ctxRawEx schemaEx) tEmptyEx
        [issueA1] 50).records.length = 1
    ∧ (sync_issues (populate_field_names ctxRawEx schemaEx)
        (sync_issues (populate_field_names ctxRawEx schemaEx) tEmptyEx [issueA1] 50)
        [issueA1] 50).records.length = 2
    ∧ get_airtable_field_name (populate_field_names ctxRawEx schemaEx) "key" = none :=
  ⟨rfl, rfl, rfl⟩

/-! ## Structural lemmas towards the amended idempotence theorem -/

/-- The records a batch create appends: payload `j` of the list gets
id `recId (n + j)`. -/
def recsFrom (n : Nat) : List Payload → List ATRecord
  | [] => []
  | p :: ps => ⟨recId n, p⟩ :: recsFrom (n + 1) ps

theorem recsFrom_append (a b : List Payload) :
    ∀ n, recsFrom n (a ++ b) = recsFrom n a ++ recsFrom (n + a.length) b := by
  induction a with
  | nil => intro n; simp [recsFrom]
  | cons p a ih =>
    intro n
    simp only [List.cons_append, recsFrom, List.length_cons, List.append_eq]
    rw [ih (n + 1), show n + 1 + a.length = n + (a.length + 1) from by omega]

theorem recsFrom_length (ps : List Payload) : ∀ n, (recsFrom n ps).length = ps.length := by
  induction ps with
  | nil => intro n; rfl
  | cons p ps ih => intro n; simp [recsFrom, ih]

theorem batchCreate_fold (ps : List Payload) :
    ∀ (t : ATable) (ids : List String),
      (ps.foldl
        (fun acc p =>
          let (t', rid) := createOne acc.1 p
          (t', acc.2 ++ [rid]))
        (t, ids)).1
      = { t with records := t.records ++ recsFrom t.nextId ps,
                 nextId := t.nextId + ps.length } := by
  induction ps with
  | nil =>
    intro t ids
    simp [recsFrom]
  | cons p ps ih =>
    intro t ids
    simp only [List.foldl_cons]
    rw [ih (createOne t p).1 (ids ++ [(createOne t p).2])]
    simp [createOne, recsFrom]
    omega

theorem batchCreate_run (ps : List Payload) (t : ATable) :
    (batchCreate t ps).1 =
      { t with records := t.records ++ recsFrom t.nextId ps,
               nextId := t.nextId + ps.length } := by
  unfold batchCreate
  exact batchCreate_fold ps t []

theorem insertSet_mem (l : List String) (k : String) : k ∈ insertSet l k := by
  unfold insertSet
  by_cases h : l.contains k
  · rw [if_pos h]; exact List.mem_of_elem_eq_true h
  · rw [if_neg h]; exact List.mem_append_right _ (List.mem_singleton.mpr rfl)

theorem insertSet_subset (l : List String) (k k' : String) (h : k' ∈ l) :
    k' ∈ insertSet l k := by
  unfold insertSet
  by_cases hc : l.contains k
  · rw [if_pos hc]; exact h
  · rw [if_neg hc]; exact List.mem_append_left _ h

theorem insertOverwrite_mem {l : List (String × α)} {k : String} {v : α} {p : String × α}
    (h : p ∈ insertOverwrite l k v) : p.1 = k ∨ p ∈ l := by
  unfold insertOverwrite at h
  by_cases hany : l.any (fun q => q.1 = k) = true
  · rw [if_pos hany] at h
    obtain ⟨q, hq, hqe⟩ := List.mem_map.mp h
    by_cases hk : q.1 = k
    · rw [if_pos hk] at hqe
      left; rw [← hqe]
    · rw [if_neg hk] at hqe
      right; rw [← hqe]; exact hq
  · rw [if_neg (by revert hany; cases l.any (fun q => q.1 = k) <;> simp)] at h
    rcases List.mem_append.mp h with h | h
    · right; exact h
    · left
      rw [List.mem_singleton.mp h]

/-- Every key of a converted object payload is a mapped field id. -/
theorem conv_fold_keys (issue : JiraIssue) (P : String → Prop) :
    ∀ (l : List (String × FieldMappingInfo)) (acc : Payload),
      (∀ p ∈ acc, P p.1) → (∀ kv ∈ l, P kv.2.airtable_field_id) →
      ∀ p ∈ (l.foldl
        (fun acc kv =>
          if kv.1 = "parent" then acc
          else
            match get_issue_field_value issue kv.1 with
            | some v => insertOverwrite acc kv.2.airtable_field_id v
            | none => acc) acc), P p.1 := by
  intro l
  induction l with
  | nil => intro acc hacc _ p hp; exact hacc p hp
  | cons kv l ih =>
    intro acc hacc hl
    simp only [List.foldl_cons]
    have hl' : ∀ kv' ∈ l, P kv'.2.airtable_field_id :=
      fun kv' h => hl kv' (List.mem_cons_of_mem _ h)
    by_cases hpar : kv.1 = "parent"
    · rw [if_pos hpar]; exact ih acc hacc hl'
    · rw [if_neg hpar]
      cases hval : get_issue_field_value issue kv.1 with
      | none => exact ih acc hacc hl'
      | some v =>
        refine ih _ ?_ hl'
        intro p hp
        rcases insertOverwrite_mem hp with h | h
        · rw [h]; exact hl kv (List.mem_cons_self _ _)
        · exact hacc p h

/-- The keys of a converted object payload are duplicate-free. -/
theorem conv_fold_nodup (issue : JiraIssue) :
    ∀ (l : List (String × FieldMappingInfo)) (acc : Payload),
      (acc.map Prod.fst).Nodup →
      (((l.foldl
        (fun acc kv =>
          if kv.1 = "parent" then acc
          else
            match get_issue_field_value issue kv.1 with
            | some v => insertOverwrite acc kv.2.airtable_field_id v
            | none => acc) acc)).map Prod.fst).Nodup := by
  intro l
  induction l with
  | nil => intro acc hacc; exact hacc
  | cons kv l ih =>
    intro acc hacc
    simp only [List.foldl_cons]
    by_cases hpar : kv.1 = "parent"
    · rw [if_pos hpar]; exact ih acc hacc
    · rw [if_neg hpar]
      cases hval : get_issue_field_value issue kv.1 with
      | none => exact ih acc hacc
      | some v => exact ih _ (insertOverwrite_keys_nodup v hacc)

/-- Once the `key` mapping is processed, the payload carries the
issue's key under the mapped key field id, and keeps it. -/
theorem conv_fold_key_lookup (issue : JiraIssue) (kfid : String)
    (kfname : Option String) :
    ∀ (l : List (String × FieldMappingInfo)) (acc : Payload),
      (alookup l "key" = some ⟨kfid, kfname⟩ ∧ alookup acc kfid = none
        ∨ alookup acc kfid = some (.s issue.key)) →
      (∀ kv ∈ l, kv.2.airtable_field_id = kfid → kv.1 = "key") →
      alookup (l.foldl
        (fun acc kv =>
          if kv.1 = "parent" then acc
          else
            match get_issue_field_value issue kv.1 with
            | some v => insertOverwrite acc kv.2.airtable_field_id v
            | none => acc) acc) kfid = some (.s issue.key) := by
  intro l
  induction l with
  | nil =>
    intro acc hst _
    rcases hst with ⟨h, -⟩ | h
    · exact absurd h (by rw [alookup_nil]; exact fun he => Option.noConfusion he)
    · exact h
  | cons kv l ih =>
    intro acc hst hres
    simp only [List.foldl_cons]
    have hres' : ∀ kv' ∈ l, kv'.2.airtable_field_id = kfid → kv'.1 = "key" :=
      fun kv' h => hres kv' (List.mem_cons_of_mem _ h)
    obtain ⟨jf, info⟩ := kv
    rcases hst with ⟨hkey, hacc⟩ | hacc
    · rw [alookup_cons] at hkey
      by_cases hjf : jf = "key"
      · rw [if_pos hjf] at hkey
        injection hkey with hkey
        subst hjf
        have hpar : ("key" : String) ≠ "parent" := by decide
        rw [if_neg hpar]
        have hextract : get_issue_field_value issue "key" = some (.s issue.key) := rfl
        rw [hextract]
        apply ih
        · right
          rw [alookup_insertOverwrite]
          rw [show info.airtable_field_id = kfid from by rw [hkey]]
          rw [if_pos rfl]
        · exact hres'
      · rw [if_neg hjf] at hkey
        by_cases hpar : jf = "parent"
        · rw [if_pos hpar]
          exact ih acc (Or.inl ⟨hkey, hacc⟩) hres'
        · rw [if_neg hpar]
          have hid : info.airtable_field_id ≠ kfid := by
            intro he
            exact hjf (hres (jf, info) (List.mem_cons_self _ _) he)
          cases hval : get_issue_field_value issue jf with
          | none => exact ih acc (Or.inl ⟨hkey, hacc⟩) hres'
          | some v =>
            apply ih _ _ hres'
            left
            refine ⟨hkey, ?_⟩
            rw [alookup_insertOverwrite, if_neg (fun he => hid he.symm)]
            exact hacc
    · by_cases hpar : jf = "parent"
      · rw [if_pos hpar]
        exact ih acc (Or.inr hacc) hres'
      · rw [if_neg hpar]
        cases hval : get_issue_field_value issue jf with
        | none => exact ih acc (Or.inr hacc) hres'
        | some v =>
          apply ih _ _ hres'
          right
          by_cases hid : info.airtable_field_id = kfid
          · have hjf : jf = "key" := hres (jf, info) (List.mem_cons_self _ _) hid
            subst hjf
            have : get_issue_field_value issue "key" = some (.s issue.key) := rfl
            rw [this] at hval
            injection hval with hval
            rw [alookup_insertOverwrite, hid, if_pos rfl, ← hval]
          · rw [alookup_insertOverwrite, if_neg (fun he => hid he.symm)]
            exact hacc

/-- Matching against an empty store finds nothing. -/
theorem get_existing_empty (ctx : SyncCtx) (t : ATable) (ht : t.records = [])
    (keys : List String) : get_existing_record_ids ctx t keys = [] := by
  unfold get_existing_record_ids
  by_cases hk : keys.isEmpty = true
  · rw [if_pos hk]
  · rw [if_neg hk]
    cases get_airtable_field_id ctx "key" with
    | none => rfl
    | some kfid =>
      cases get_airtable_field_name ctx "key" with
      | none => rfl
      | some kfname =>
        dsimp only
        by_cases hguard : kfid = "" ∨ kfname = ""
        · rw [if_pos hguard]
        · rw [if_neg hguard]
          rw [ht]
          have : ∀ (cl : List (List String)) (m : List (String × String)),
              cl.foldl
                (fun m chunk =>
                  (([] : List ATRecord).filter
                    (fun r => chunk.any (fun k =>
                      match recordFieldByName t.schema r kfname with
                      | some (.s s) => s == k
                      | _ => false))).foldl
                    (fun m r =>
                      match recordFieldByName t.schema r kfname with
                      | some (.s k) => if k = "" then m else insertOverwrite m k r.id
                      | _ => m) m) m = m := by
            intro cl
            induction cl with
            | nil => intro m; rfl
            | cons c cl ih =>
              intro m
              simp only [List.foldl_cons, List.filter_nil, List.foldl_nil]
              exact ih m
          exact this _ []

/-- Wrapper: converted object payloads only use mapped field ids. -/
theorem conv_keys (ctx : SyncCtx) (issue : JiraIssue) (P : String → Prop)
    (h : ∀ kv ∈ ctx.fieldMappings, P kv.2.airtable_field_id) :
    ∀ p ∈ convert_issue_to_record ctx (.obj issue), P p.1 := by
  unfold convert_issue_to_record
  exact conv_fold_keys issue P ctx.fieldMappings [] (by intro p hp; simp at hp) h

/-- Wrapper: converted object payloads have duplicate-free keys. -/
theorem conv_nodup (ctx : SyncCtx) (issue : JiraIssue) :
    ((convert_issue_to_record ctx (.obj issue)).map Prod.fst).Nodup := by
  unfold convert_issue_to_record
  exact conv_fold_nodup issue ctx.fieldMappings [] List.nodup_nil

/-- Wrapper: a converted object payload carries the issue key under
the mapped key field id. -/
theorem conv_key_lookup (ctx : SyncCtx) (issue : JiraIssue) (kfid : String)
    (kfname : Option String)
    (h1 : alookup ctx.fieldMappings "key" = some ⟨kfid, kfname⟩)
    (h5 : ∀ kv ∈ ctx.fieldMappings, kv.2.airtable_field_id = kfid → kv.1 = "key") :
    alookup (convert_issue_to_record ctx (.obj issue)) kfid = some (.s issue.key) := by
  unfold convert_issue_to_record
  exact conv_fold_key_lookup issue kfid kfname ctx.fieldMappings []
    (Or.inl ⟨h1, rfl⟩) h5

/-- A dict payload whose keys look like Airtable field ids is returned
unchanged by conversion. -/
theorem convert_dict_id (ctx : SyncCtx) (d : Payload)
    (h : d.any (fun kv => pyStartsWith kv.1 "fld") = true) :
    convert_issue_to_record ctx (.dict d) = d := by
  unfold convert_issue_to_record
  dsimp only
  rw [if_pos h]

theorem any_fld_of_key (d : Payload) (kfid : String) (v : PVal)
    (hl : alookup d kfid = some v)
    (hfld : ∀ p ∈ d, pyStartsWith p.1 "fld" = true) :
    d.any (fun kv => pyStartsWith kv.1 "fld") = true := by
  rw [List.any_eq_true]
  exact ⟨(kfid, v), mem_of_alookup_some hl, hfld _ (mem_of_alookup_some hl)⟩

/-- A payload with only `fld`-prefixed keys has no `parent` key, so the
dict branch of `_extract_parent_key` finds nothing. -/
theorem extract_parent_dict_none (ctx : SyncCtx) (d : Payload)
    (hfld : ∀ p ∈ d, pyStartsWith p.1 "fld" = true) :
    extract_parent_key ctx (.dict d) = none := by
  unfold extract_parent_key
  dsimp only
  by_cases hany : ctx.fieldMappings.any (fun kv => kv.1 = "parent") = true
  · rw [if_pos hany]
    cases hp : alookup d "parent" with
    | none => rfl
    | some v =>
      have hmem := mem_of_alookup_some hp
      have hpv : pyStartsWith "parent" "fld" = true := hfld _ hmem
      exact absurd hpv (by decide)
  · have hany' : ctx.fieldMappings.any (fun kv => kv.1 = "parent") = false := by
      revert hany
      cases ctx.fieldMappings.any (fun kv => kv.1 = "parent") <;> simp
    rw [hany']
    simp

/-- The parent pass is a no-op on payload dicts whose parent key is
gone (as in the `sync_issues` path). -/
theorem update_parent_noop (ctx : SyncCtx) (t : ATable)
    (ds : List Payload) (existing : List (String × String))
    (h : ∀ d ∈ ds, extract_parent_key ctx (.dict d) = none) :
    update_parent_relationships ctx t (ds.map PyIssue.dict) existing = t := by
  unfold update_parent_relationships
  have hfold : ∀ (l : List Payload) (acc : List (String × Payload)),
      (∀ d ∈ l, extract_parent_key ctx (.dict d) = none) →
      (l.map PyIssue.dict).foldl
        (fun acc issue =>
          match
            match issue with
            | .obj i => some i.key
            | .dict p =>
              match get_airtable_field_id ctx "key" with
              | none => none
              | some kfid =>
                match alookup p kfid with
                | some (.s k) => some k
                | _ => none
          with
          | none => acc
          | some ik =>
            match extract_parent_key ctx issue with
            | none => acc
            | some pk =>
              if pk = "" then acc
              else
                match alookup existing ik, alookup existing pk with
                | some childId, some parentId =>
                  match get_airtable_field_id ctx "parent" with
                  | none => acc
                  | some pfid => acc ++ [(childId, [(pfid, PVal.strList [parentId])])]
                | _, _ => acc) acc = acc := by
    intro l
    induction l with
    | nil => intro acc _; rfl
    | cons d l ih =>
      intro acc hl
      simp only [List.map_cons, List.foldl_cons]
      have hd := hl d (List.mem_cons_self _ _)
      have hstep :
          (match
            match PyIssue.dict d with
            | .obj i => some i.key
            | .dict p =>
              match get_airtable_field_id ctx "key" with
              | none => none
              | some kfid =>
                match alookup p kfid with
                | some (.s k) => some k
                | _ => none
          with
          | none => acc
          | some ik =>
            match extract_parent_key ctx (PyIssue.dict d) with
            | none => acc
            | some pk =>
              if pk = "" then acc
              else
                match alookup existing ik, alookup existing pk with
                | some childId, some parentId =>
                  match get_airtable_field_id ctx "parent" with
                  | none => acc
                  | some pfid => acc ++ [(childId, [(pfid, PVal.strList [parentId])])]
                | _, _ => acc) = acc := by
        cases hik :
          (match get_airtable_field_id ctx "key" with
           | none => none
           | some kfid =>
             match alookup d kfid with
             | some (.s k) => some k
             | _ => (none : Option String)) with
        | none => simp [hik]
        | some ik => simp [hik, hd]
      rw [hstep]
      exact ih acc (fun d' h' => hl d' (List.mem_cons_of_mem _ h'))
  rw [hfold ds [] h]
  rfl

/-- With an empty id map, the create/update split sends every good
payload dict to the create list. -/
theorem split_all_create (ctx : SyncCtx) (kfid : String)
    (hctxkey : get_airtable_field_id ctx "key" = some kfid) :
    ∀ (ds : List Payload) (acc : List Payload × List (String × Payload)),
      (∀ d ∈ ds, (∃ k, alookup d kfid = some (.s k) ∧ k ≠ "") ∧
        d.any (fun kv => pyStartsWith kv.1 "fld") = true) →
      (ds.map PyIssue.dict).foldl
        (fun (acc : List Payload × List (String × Payload)) issue =>
          match issueBatchKey ctx issue with
          | none => acc
          | some kv =>
            if pvTruthy kv then
              let rd := convert_issue_to_record ctx issue
              match kv with
              | .s k =>
                (match alookup ([] : List (String × String)) k with
                 | some rid => (acc.1, acc.2 ++ [(rid, rd)])
                 | none => (acc.1 ++ [rd], acc.2))
              | _ => (acc.1 ++ [rd], acc.2)
            else acc) acc
      = (acc.1 ++ ds, acc.2) := by
  intro ds
  induction ds with
  | nil => intro acc _; simp
  | cons d ds ih =>
    intro acc hgood
    obtain ⟨⟨k, hk, hkne⟩, hfld⟩ := hgood d (List.mem_cons_self _ _)
    simp only [List.map_cons, List.foldl_cons]
    have hkey : issueBatchKey ctx (PyIssue.dict d) = some (.s k) := by
      unfold issueBatchKey
      rw [hctxkey]
      exact hk
    rw [hkey]
    dsimp only
    have htr : pvTruthy (.s k) = true := by
      unfold pvTruthy
      simpa using hkne
    rw [htr, if_pos rfl]
    rw [convert_dict_id ctx d hfld, alookup_nil]
    rw [ih (acc.1 ++ [d], acc.2)
      (fun d' h' => hgood d' (List.mem_cons_of_mem _ h'))]
    simp

/-- Processing one batch of good payload dicts against an empty id map
creates them all, in order, and changes nothing else. -/
theorem process_batch_create (ctx : SyncCtx) (S : List ATField) (kfid : String)
    (hctxkey : get_airtable_field_id ctx "key" = some kfid)
    (ds : List Payload)
    (hgp : ∀ d ∈ ds,
      (∃ k, alookup d kfid = some (.s k) ∧ k ≠ "") ∧
      payloadValid S d = true ∧
      (∀ p ∈ d, pyStartsWith p.1 "fld" = true))
    (t : ATable) (hts : t.schema = S) :
    process_issue_batch ctx t (ds.map PyIssue.dict) [] =
      { t with records := t.records ++ recsFrom t.nextId ds,
               nextId := t.nextId + ds.length } := by
  have hany : ∀ d ∈ ds, d.any (fun kv => pyStartsWith kv.1 "fld") = true := by
    intro d hd
    obtain ⟨⟨k, hk, -⟩, -, hfld⟩ := hgp d hd
    exact any_fld_of_key d kfid (.s k) hk hfld
  unfold process_issue_batch
  rw [split_all_create ctx kfid hctxkey ds ([], [])
    (fun d hd => ⟨(hgp d hd).1, hany d hd⟩)]
  simp only [List.nil_append, List.isEmpty_nil, eq_self_iff_true, if_true]
  have hpar : update_parent_relationships ctx
      (if ds.isEmpty then t else (batch_create_with_progress t ds).1)
      (ds.map PyIssue.dict) [] =
      (if ds.isEmpty then t else (batch_create_with_progress t ds).1) := by
    apply update_parent_noop
    intro d hd
    exact extract_parent_dict_none ctx d (hgp d hd).2.2
  cases ds with
  | nil =>
    rw [hpar]
    simp [recsFrom]
  | cons d0 ds0 =>
    have hne : ((d0 :: ds0 : List Payload)).isEmpty = false := rfl
    rw [hne]
    simp only [Bool.false_eq_true, if_false]
    have hvalid : (d0 :: ds0).all (fun p => payloadValid t.schema p) = true := by
      rw [List.all_eq_true]
      intro d hd
      rw [hts]
      exact (hgp d hd).2.1
    have hbc : (batch_create_with_progress t (d0 :: ds0)).1 =
        { t with records := t.records ++ recsFrom t.nextId (d0 :: ds0),
                 nextId := t.nextId + (d0 :: ds0).length } := by
      unfold batch_create_with_progress
      rw [if_pos hvalid]
      dsimp only
      exact batchCreate_run (d0 :: ds0) t
    rw [hne] at hpar
    simp only [Bool.false_eq_true, if_false] at hpar
    rw [hpar, hbc]

/-- The transform loop of `sync_issues`: the transformed list is the
issues in order with their converted payloads, and the collected key
set contains every issue key. -/
theorem sync_transform (ctx : SyncCtx) :
    ∀ (issues : List JiraIssue)
      (acc : List (String × Payload) × List (String × String) × List String),
      ∃ kp ak,
        issues.foldl
          (fun (acc : List (String × Payload) × List (String × String) × List String) issue =>
            let (transformed, keyToParent, allKeys) := acc
            let data := convert_issue_to_record ctx (.obj issue)
            let (keyToParent, allKeys) :=
              match extract_parent_key ctx (.obj issue) with
              | some pk =>
                if pk = "" then (keyToParent, allKeys)
                else (insertOverwrite keyToParent issue.key pk, insertSet allKeys pk)
              | none => (keyToParent, allKeys)
            (transformed ++ [(issue.key, data)], keyToParent, insertSet allKeys issue.key)) acc
        = (acc.1 ++ issues.map (fun i => (i.key, convert_issue_to_record ctx (.obj i))), kp, ak)
        ∧ (∀ k ∈ acc.2.2, k ∈ ak)
        ∧ (∀ i ∈ issues, i.key ∈ ak) := by
  intro issues
  induction issues with
  | nil =>
    intro acc
    exact ⟨acc.2.1, acc.2.2, by simp, fun k hk => hk, fun i hi => absurd hi (by simp)⟩
  | cons issue issues ih =>
    intro acc
    obtain ⟨tr, kp0, ak0⟩ := acc
    rw [List.foldl_cons, List.map_cons]
    have hassoc : tr ++ (issue.key, convert_issue_to_record ctx (.obj issue)) ::
        issues.map (fun i => (i.key, convert_issue_to_record ctx (.obj i)))
        = (tr ++ [(issue.key, convert_issue_to_record ctx (.obj issue))]) ++
          issues.map (fun i => (i.key, convert_issue_to_record ctx (.obj i))) := by
      simp
    cases hp : extract_parent_key ctx (.obj issue) with
    | none =>
      dsimp only
      obtain ⟨kp, ak, heq, hmono, hall⟩ :=
        ih (tr ++ [(issue.key, convert_issue_to_record ctx (.obj issue))], kp0,
          insertSet ak0 issue.key)
      refine ⟨kp, ak, ?_, ?_, ?_⟩
      · rw [hassoc]; exact heq
      · intro k hk
        exact hmono k (insertSet_subset _ _ _ hk)
      · intro i hi
        rcases List.mem_cons.mp hi with h | h
        · subst h; exact hmono i.key (insertSet_mem _ _)
        · exact hall i h
    | some pk =>
      dsimp only
      by_cases hpk : pk = ""
      · subst hpk
        obtain ⟨kp, ak, heq, hmono, hall⟩ :=
          ih (tr ++ [(issue.key, convert_issue_to_record ctx (.obj issue))], kp0,
            insertSet ak0 issue.key)
        refine ⟨kp, ak, ?_, ?_, ?_⟩
        · rw [hassoc]; exact heq
        · intro k hk
          exact hmono k (insertSet_subset _ _ _ hk)
        · intro i hi
          rcases List.mem_cons.mp hi with h | h
          · subst h; exact hmono i.key (insertSet_mem _ _)
          · exact hall i h
      · rw [if_neg hpk]
        obtain ⟨kp, ak, heq, hmono, hall⟩ :=
          ih (tr ++ [(issue.key, convert_issue_to_record ctx (.obj issue))],
            insertOverwrite kp0 issue.key pk, insertSet (insertSet ak0 pk) issue.key)
        refine ⟨kp, ak, ?_, ?_, ?_⟩
        · rw [hassoc]; exact heq
        · intro k hk
          exact hmono k (insertSet_subset _ _ _ (insertSet_subset _ _ _ hk))
        · intro i hi
          rcases List.mem_cons.mp hi with h | h
          · subst h; exact hmono i.key (insertSet_mem _ _)
          · exact hall i h

/-- Folding the per-batch processing over payload chunks with an empty
id map creates every payload of every chunk, in order. -/
theorem chunks_create (ctx : SyncCtx) (S : List ATField) (kfid : String)
    (hctxkey : get_airtable_field_id ctx "key" = some kfid) :
    ∀ (css : List (List (String × Payload))) (t : ATable), t.schema = S →
      (∀ kp ∈ css.flatten,
        (∃ k, alookup kp.2 kfid = some (.s k) ∧ k ≠ "") ∧
        payloadValid S kp.2 = true ∧
        (∀ p ∈ kp.2, pyStartsWith p.1 "fld" = true)) →
      css.foldl
        (fun t batch =>
          process_issue_batch ctx t (batch.map (fun kp => PyIssue.dict kp.2)) []) t
      = { t with
          records := t.records ++ recsFrom t.nextId (css.flatten.map (fun kp => kp.2)),
          nextId := t.nextId + css.flatten.length } := by
  intro css
  induction css with
  | nil =>
    intro t ht _
    simp [recsFrom]
  | cons cs css ih =>
    intro t ht hgp
    rw [List.foldl_cons]
    have harg : cs.map (fun kp : String × Payload => PyIssue.dict kp.2)
        = (cs.map (fun kp => kp.2)).map PyIssue.dict := by
      rw [List.map_map]; rfl
    have hgp' : ∀ d ∈ cs.map (fun kp => kp.2),
        (∃ k, alookup d kfid = some (.s k) ∧ k ≠ "") ∧
        payloadValid S d = true ∧
        (∀ p ∈ d, pyStartsWith p.1 "fld" = true) := by
      intro d hd
      obtain ⟨kp, hkp, hkpe⟩ := List.mem_map.mp hd
      subst hkpe
      exact hgp kp (by rw [List.flatten_cons]; exact List.mem_append_left _ hkp)
    rw [harg, process_batch_create ctx S kfid hctxkey (cs.map (fun kp => kp.2)) hgp' t ht]
    rw [ih _ (by rw [← ht]) (fun kp hkp => hgp kp
      (by rw [List.flatten_cons]; exact List.mem_append_right _ hkp))]
    rw [List.flatten_cons, List.map_append, recsFrom_append]
    simp only [List.length_map, List.length_append, List.append_assoc]
    rw [Nat.add_assoc]

/-- Run-1 characterization: from an empty store, `sync_issues` creates
exactly one record per issue, in order, with ids `recId n0, …`. -/
theorem sync_run1 (ctx : SyncCtx) (S : List ATField) (issues : List JiraIssue)
    (batchSize n0 pc : Nat) (kfid : String) (kfname : Option String)
    (hkey : alookup ctx.fieldMappings "key" = some ⟨kfid, kfname⟩)
    (hkid : kfid ≠ "")
    (huniq : ∀ kv ∈ ctx.fieldMappings, kv.2.airtable_field_id = kfid → kv.1 = "key")
    (hfld : ∀ kv ∈ ctx.fieldMappings, pyStartsWith kv.2.airtable_field_id "fld" = true)
    (hne : ∀ i ∈ issues, i.key ≠ "")
    (hvalid : ∀ i ∈ issues,
      payloadValid S (convert_issue_to_record ctx (.obj i)) = true)
    (hbs : 0 < batchSize) :
    sync_issues ctx ⟨S, [], n0, pc⟩ issues batchSize
      = ⟨S, recsFrom n0 (issues.map (fun i => convert_issue_to_record ctx (.obj i))),
          n0 + issues.length, pc⟩ := by
  have hctxkey : get_airtable_field_id ctx "key" = some kfid := by
    unfold get_airtable_field_id
    rw [hkey]
    rfl
  unfold sync_issues
  by_cases hemp : issues.isEmpty = true
  · rw [if_pos hemp]
    rw [List.isEmpty_iff] at hemp
    subst hemp
    simp [recsFrom]
  · rw [if_neg hemp]
    obtain ⟨kp, ak, heq, -, -⟩ := sync_transform ctx issues ([], [], [])
    rw [heq]
    dsimp only
    rw [get_existing_empty ctx ⟨S, [], n0, pc⟩ rfl ak]
    simp only [List.nil_append]
    have hgp : ∀ kp ∈ (chunksOf batchSize
        (issues.map (fun i => (i.key, convert_issue_to_record ctx (.obj i))))).flatten,
        (∃ k, alookup kp.2 kfid = some (.s k) ∧ k ≠ "") ∧
        payloadValid S kp.2 = true ∧
        (∀ p ∈ kp.2, pyStartsWith p.1 "fld" = true) := by
      intro kp hkp
      rw [chunksOf_flatten hbs] at hkp
      obtain ⟨i, hi, hie⟩ := List.mem_map.mp hkp
      subst hie
      refine ⟨⟨i.key, conv_key_lookup ctx i kfid kfname hkey huniq, hne i hi⟩,
        hvalid i hi, ?_⟩
      intro p hp
      exact conv_keys ctx i (fun k => pyStartsWith k "fld" = true)
        (fun kv hkv => hfld kv hkv) p hp
    rw [chunks_create ctx S kfid hctxkey _ ⟨S, [], n0, pc⟩ rfl hgp]
    rw [chunksOf_flatten hbs]
    simp only [List.map_map, List.length_map, List.nil_append]
    rfl

/-- The key → record-id association the first run establishes. -/
def keyIdAssoc (n : Nat) : List JiraIssue → List (String × String)
  | [] => []
  | i :: is => (i.key, recId n) :: keyIdAssoc (n + 1) is

theorem keyIdAssoc_lookup_range :
    ∀ (issues : List JiraIssue) (n : Nat) (k rid : String),
      alookup (keyIdAssoc n issues) k = some rid → ∃ m, n ≤ m ∧ rid = recId m := by
  intro issues
  induction issues with
  | nil => intro n k rid h; rw [keyIdAssoc, alookup_nil] at h; exact Option.noConfusion h
  | cons i is ih =>
    intro n k rid h
    rw [keyIdAssoc, alookup_cons] at h
    by_cases hk : i.key = k
    · rw [if_pos hk] at h
      injection h with h
      exact ⟨n, le_rfl, h.symm⟩
    · rw [if_neg hk] at h
      obtain ⟨m, hm, he⟩ := ih (n + 1) k rid h
      exact ⟨m, by omega, he⟩

theorem keyIdAssoc_value_inj :
    ∀ (issues : List JiraIssue) (n : Nat) (k1 k2 rid : String),
      alookup (keyIdAssoc n issues) k1 = some rid →
      alookup (keyIdAssoc n issues) k2 = some rid → k1 = k2 := by
  intro issues
  induction issues with
  | nil => intro n k1 k2 rid h1 _; rw [keyIdAssoc, alookup_nil] at h1; exact Option.noConfusion h1
  | cons i is ih =>
    intro n k1 k2 rid h1 h2
    rw [keyIdAssoc, alookup_cons] at h1 h2
    by_cases hk1 : i.key = k1
    · rw [if_pos hk1] at h1
      injection h1 with h1
      by_cases hk2 : i.key = k2
      · rw [← hk1, ← hk2]
      · rw [if_neg hk2] at h2
        obtain ⟨m, hm, he⟩ := keyIdAssoc_lookup_range is (n + 1) k2 rid h2
        subst he
        have := recId_injective h1
        omega
    · rw [if_neg hk1] at h1
      by_cases hk2 : i.key = k2
      · rw [if_pos hk2] at h2
        injection h2 with h2
        obtain ⟨m, hm, he⟩ := keyIdAssoc_lookup_range is (n + 1) k1 rid h1
        subst he
        have := recId_injective h2
        omega
      · rw [if_neg hk2] at h2
        exact ih (n + 1) k1 k2 rid h1 h2

/-- Members of a key-nodup issue list with equal keys are equal. -/
theorem issues_key_inj {issues : List JiraIssue}
    (hnd : (issues.map JiraIssue.key).Nodup) :
    ∀ i ∈ issues, ∀ i' ∈ issues, i.key = i'.key → i = i' := by
  induction issues with
  | nil => intro i hi; simp at hi
  | cons j is ih =>
    intro i hi i' hi' hk
    simp only [List.map_cons, List.nodup_cons] at hnd
    rcases List.mem_cons.mp hi with h | h <;> rcases List.mem_cons.mp hi' with h' | h'
    · rw [h, h']
    · subst h
      exact absurd (List.mem_map.mpr ⟨i', h', hk.symm⟩) hnd.1
    · subst h'
      exact absurd (List.mem_map.mpr ⟨i, h, hk⟩) hnd.1
    · exact ih hnd.2 i h i' h' hk

/-- Every record the first run creates corresponds to an issue: its
fields are that issue's payload, its key field reads the issue key,
and the key → id oracle maps that key to the record id. -/
theorem store_chars (ctx : SyncCtx) (S : List ATField) (kfid kfname : String)
    (hkey : alookup ctx.fieldMappings "key" = some ⟨kfid, some kfname⟩)
    (huniq : ∀ kv ∈ ctx.fieldMappings, kv.2.airtable_field_id = kfid → kv.1 = "key")
    (hres : resolveFieldId S kfname = some kfid) :
    ∀ (issues : List JiraIssue) (n : Nat),
      (issues.map JiraIssue.key).Nodup →
      ∀ r ∈ recsFrom n (issues.map (fun i => convert_issue_to_record ctx (.obj i))),
        ∃ i ∈ issues, r.fields = convert_issue_to_record ctx (.obj i)
          ∧ recordFieldByName S r kfname = some (.s i.key)
          ∧ alookup (keyIdAssoc n issues) i.key = some r.id := by
  intro issues
  induction issues with
  | nil => intro n _ r hr; simp [recsFrom] at hr
  | cons i is ih =>
    intro n hnd r hr
    simp only [List.map_cons, List.nodup_cons] at hnd
    simp only [List.map_cons, recsFrom] at hr
    rcases List.mem_cons.mp hr with h | h
    · refine ⟨i, List.mem_cons_self _ _, ?_, ?_, ?_⟩
      · rw [h]
      · rw [h]
        unfold recordFieldByName
        rw [hres]
        exact conv_key_lookup ctx i kfid (some kfname) hkey huniq
      · rw [keyIdAssoc, alookup_cons, if_pos rfl, h]
    · obtain ⟨i', hi', hfields, hkeyval, hem⟩ := ih (n + 1) hnd.2 r h
      refine ⟨i', List.mem_cons_of_mem _ hi', hfields, hkeyval, ?_⟩
      rw [keyIdAssoc, alookup_cons, if_neg ?_]
      · exact hem
      · intro he
        exact hnd.1 (List.mem_map.mpr ⟨i', hi', he.symm⟩)

/-- Every issue of the first run has a record in the created store,
with a matching key field and oracle entry. -/
theorem store_of_issue (ctx : SyncCtx) (S : List ATField) (kfid kfname : String)
    (hkey : alookup ctx.fieldMappings "key" = some ⟨kfid, some kfname⟩)
    (huniq : ∀ kv ∈ ctx.fieldMappings, kv.2.airtable_field_id = kfid → kv.1 = "key")
    (hres : resolveFieldId S kfname = some kfid) :
    ∀ (issues : List JiraIssue) (n : Nat),
      (issues.map JiraIssue.key).Nodup →
      ∀ i ∈ issues,
        ∃ r ∈ recsFrom n (issues.map (fun j => convert_issue_to_record ctx (.obj j))),
          r.fields = convert_issue_to_record ctx (.obj i)
          ∧ recordFieldByName S r kfname = some (.s i.key)
          ∧ alookup (keyIdAssoc n issues) i.key = some r.id := by
  intro issues
  induction issues with
  | nil => intro n _ i hi; simp at hi
  | cons j is ih =>
    intro n hnd i hi
    simp only [List.map_cons, List.nodup_cons] at hnd
    rcases List.mem_cons.mp hi with h | h
    · subst h
      refine ⟨⟨recId n, convert_issue_to_record ctx (.obj i)⟩, ?_, rfl, ?_, ?_⟩
      · simp only [List.map_cons, recsFrom]
        exact List.mem_cons_self _ _
      · unfold recordFieldByName
        rw [hres]
        exact conv_key_lookup ctx i kfid (some kfname) hkey huniq
      · rw [keyIdAssoc, alookup_cons, if_pos rfl]
    · obtain ⟨r, hr, hfields, hkeyval, hem⟩ := ih (n + 1) hnd.2 i h
      refine ⟨r, ?_, hfields, hkeyval, ?_⟩
      · simp only [List.map_cons, recsFrom]
        exact List.mem_cons_of_mem _ hr
      · rw [keyIdAssoc, alookup_cons, if_neg ?_]
        · exact hem
        · intro he
          exact hnd.1 (List.mem_map.mpr ⟨i, h, he.symm⟩)

/-- The per-record step of the `_get_existing_record_ids` mapping fold
(the body of the `for record in records:` loop, src/sync.py:688-698). -/
def matchStep (S : List ATField) (kfname : String)
    (m : List (String × String)) (r : ATRecord) : List (String × String) :=
  match recordFieldByName S r kfname with
  | some (.s k) => if k = "" then m else insertOverwrite m k r.id
  | _ => m

/-- The per-chunk step of `_get_existing_record_ids`: filter the store
with the chunk's `OR(...)` formula, then fold the hits into the map. -/
def matchChunk (S : List ATField) (kfname : String) (rs : List ATRecord)
    (m : List (String × String)) (chunk : List String) : List (String × String) :=
  (rs.filter (fun r => chunk.any (fun k =>
    match recordFieldByName S r kfname with
    | some (.s s) => s == k
    | _ => false))).foldl (matchStep S kfname) m

/-- One mapping step either keeps a lookup unchanged or moves it to the
oracle value, provided every record's key resolves in the oracle. -/
theorem matchStep_or (S : List ATField) (kfname : String)
    (em m : List (String × String)) (r : ATRecord) (k : String)
    (hgood : ∀ ky, recordFieldByName S r kfname = some (.s ky) →
      alookup em ky = some r.id) :
    alookup (matchStep S kfname m r) k = alookup m k
    ∨ alookup (matchStep S kfname m r) k = alookup em k := by
  unfold matchStep
  cases hv : recordFieldByName S r kfname with
  | none => left; rfl
  | some v =>
    cases v with
    | s ky =>
      dsimp only
      by_cases h0 : ky = ""
      · rw [if_pos h0]; left; rfl
      · rw [if_neg h0, alookup_insertOverwrite]
        by_cases hk : k = ky
        · subst hk
          rw [if_pos rfl]
          right
          exact (hgood k hv).symm
        · rw [if_neg hk]; left; rfl
    | i n => left; rfl
    | b v => left; rfl
    | strList xs => left; rfl
    | rawList xs => left; rfl
    | stringified f => left; rfl

theorem recfold_or (S : List ATField) (kfname : String) (em : List (String × String)) :
    ∀ (rs : List ATRecord) (m : List (String × String)) (k : String),
      (∀ r ∈ rs, ∀ ky, recordFieldByName S r kfname = some (.s ky) →
        alookup em ky = some r.id) →
      alookup (rs.foldl (matchStep S kfname) m) k = alookup m k
      ∨ alookup (rs.foldl (matchStep S kfname) m) k = alookup em k := by
  intro rs
  induction rs with
  | nil => intro m k _; left; rfl
  | cons r rs ih =>
    intro m k hgood
    rw [List.foldl_cons]
    rcases ih (matchStep S kfname m r) k
      (fun r' h' => hgood r' (List.mem_cons_of_mem _ h')) with h | h
    · rcases matchStep_or S kfname em m r k (hgood r (List.mem_cons_self _ _)) with h2 | h2
      · left; rw [h, h2]
      · right; rw [h, h2]
    · right; exact h

/-- If the oracle maps `k` to `rid` and some folded record reads key
`k`, the mapping fold ends with `k ↦ rid`. -/
theorem recfold_hit (S : List ATField) (kfname : String) (em : List (String × String)) :
    ∀ (rs : List ATRecord) (m : List (String × String)) (k rid : String),
      (∀ r ∈ rs, ∀ ky, recordFieldByName S r kfname = some (.s ky) →
        alookup em ky = some r.id) →
      alookup em k = some rid →
      (∃ r ∈ rs, recordFieldByName S r kfname = some (.s k)) →
      k ≠ "" →
      alookup (rs.foldl (matchStep S kfname) m) k = some rid := by
  intro rs
  induction rs with
  | nil =>
    intro m k rid _ _ hex _
    obtain ⟨r, hr, -⟩ := hex
    simp at hr
  | cons r rs ih =>
    intro m k rid hgood hem hex hk0
    rw [List.foldl_cons]
    obtain ⟨r', hr', hv'⟩ := hex
    rcases List.mem_cons.mp hr' with he | he
    · have hvr : recordFieldByName S r kfname = some (.s k) := he ▸ hv'
      have hid : alookup em k = some r.id := hgood r (List.mem_cons_self _ _) k hvr
      have hrid : r.id = rid := Option.some.inj (hid.symm.trans hem)
      have hm' : alookup (matchStep S kfname m r) k = some rid := by
        unfold matchStep
        rw [hvr]
        dsimp only
        rw [if_neg hk0, alookup_insertOverwrite, if_pos rfl, hrid]
      rcases recfold_or S kfname em rs (matchStep S kfname m r) k
        (fun r'' h'' => hgood r'' (List.mem_cons_of_mem _ h'')) with h | h
      · rw [h, hm']
      · rw [h, hem]
    · exact ih (matchStep S kfname m r) k rid
        (fun r'' h'' => hgood r'' (List.mem_cons_of_mem _ h'')) hem ⟨r', he, hv'⟩ hk0

theorem matchChunk_or (S : List ATField) (kfname : String) (em : List (String × String))
    (rs : List ATRecord) (m : List (String × String)) (chunk : List String) (k : String)
    (hgood : ∀ r ∈ rs, ∀ ky, recordFieldByName S r kfname = some (.s ky) →
      alookup em ky = some r.id) :
    alookup (matchChunk S kfname rs m chunk) k = alookup m k
    ∨ alookup (matchChunk S kfname rs m chunk) k = alookup em k := by
  unfold matchChunk
  exact recfold_or S kfname em _ m k
    (fun r hr => hgood r (List.mem_filter.mp hr).1)

theorem matchChunk_hit (S : List ATField) (kfname : String) (em : List (String × String))
    (rs : List ATRecord) (m : List (String × String)) (chunk : List String) (k rid : String)
    (hgood : ∀ r ∈ rs, ∀ ky, recordFieldByName S r kfname = some (.s ky) →
      alookup em ky = some r.id)
    (hem : alookup em k = some rid)
    (hkc : k ∈ chunk)
    (hex : ∃ r ∈ rs, recordFieldByName S r kfname = some (.s k))
    (hk0 : k ≠ "") :
    alookup (matchChunk S kfname rs m chunk) k = some rid := by
  unfold matchChunk
  obtain ⟨r, hr, hv⟩ := hex
  refine recfold_hit S kfname em _ m k rid
    (fun r' hr' => hgood r' (List.mem_filter.mp hr').1) hem ⟨r, ?_, hv⟩ hk0
  refine List.mem_filter.mpr ⟨hr, ?_⟩
  rw [List.any_eq_true]
  exact ⟨k, hkc, by simp [hv]⟩

theorem chunksfold_hit (S : List ATField) (kfname : String) (em : List (String × String))
    (rs : List ATRecord) :
    ∀ (cl : List (List String)) (m : List (String × String)) (k rid : String),
      (∀ r ∈ rs, ∀ ky, recordFieldByName S r kfname = some (.s ky) →
        alookup em ky = some r.id) →
      alookup em k = some rid →
      (∃ r ∈ rs, recordFieldByName S r kfname = some (.s k)) →
      k ≠ "" →
      (alookup m k = some rid ∨ k ∈ cl.flatten) →
      alookup (cl.foldl (matchChunk S kfname rs) m) k = some rid := by
  intro cl
  induction cl with
  | nil =>
    intro m k rid _ _ _ _ hin
    rcases hin with h | h
    · exact h
    · simp at h
  | cons c cl ih =>
    intro m k rid hgood hem hex hk0 hin
    rw [List.foldl_cons]
    rcases hin with h | h
    · rcases matchChunk_or S kfname em rs m c k hgood with h2 | h2
      · exact ih _ k rid hgood hem hex hk0 (Or.inl (by rw [h2, h]))
      · exact ih _ k rid hgood hem hex hk0 (Or.inl (by rw [h2, hem]))
    · rw [List.flatten_cons] at h
      rcases List.mem_append.mp h with h | h
      · exact ih _ k rid hgood hem hex hk0
          (Or.inl (matchChunk_hit S kfname em rs m c k rid hgood hem h hex hk0))
      · exact ih _ k rid hgood hem hex hk0 (Or.inr h)

/-- `_get_existing_record_ids` resolves a queried key to its oracle id
whenever some stored record actually carries that key. -/
theorem get_existing_hit (ctx : SyncCtx) (t : ATable) (jiraKeys : List String)
    (kfid kfname : String) (em : List (String × String))
    (hid : get_airtable_field_id ctx "key" = some kfid)
    (hname : get_airtable_field_name ctx "key" = some kfname)
    (hkid : kfid ≠ "") (hkname : kfname ≠ "")
    (hgood : ∀ r ∈ t.records, ∀ ky,
      recordFieldByName t.schema r kfname = some (.s ky) → alookup em ky = some r.id)
    (k rid : String) (hem : alookup em k = some rid)
    (hex : ∃ r ∈ t.records, recordFieldByName t.schema r kfname = some (.s k))
    (hk0 : k ≠ "") (hkmem : k ∈ jiraKeys) :
    alookup (get_existing_record_ids ctx t jiraKeys) k = some rid := by
  unfold get_existing_record_ids
  have hne : ¬(jiraKeys.isEmpty = true) := by
    intro hempty
    rw [List.isEmpty_iff] at hempty
    subst hempty
    simp at hkmem
  rw [if_neg hne, hid, hname]
  dsimp only
  rw [if_neg (fun hor : kfid = "" ∨ kfname = "" => hor.elim hkid hkname)]
  exact chunksfold_hit t.schema kfname em t.records (chunksOf 100 jiraKeys) [] k rid
    hgood hem hex hk0
    (Or.inr (by rw [chunksOf_flatten (by norm_num)]; exact hkmem))

/-- Every stored record's key value resolves in the key → id oracle. -/
theorem store_good (ctx : SyncCtx) (S : List ATField) (kfid kfname : String)
    (hkey : alookup ctx.fieldMappings "key" = some ⟨kfid, some kfname⟩)
    (huniq : ∀ kv ∈ ctx.fieldMappings, kv.2.airtable_field_id = kfid → kv.1 = "key")
    (hres : resolveFieldId S kfname = some kfid)
    (issues : List JiraIssue) (n : Nat)
    (hnd : (issues.map JiraIssue.key).Nodup) :
    ∀ r ∈ recsFrom n (issues.map (fun i => convert_issue_to_record ctx (.obj i))),
      ∀ ky, recordFieldByName S r kfname = some (.s ky) →
        alookup (keyIdAssoc n issues) ky = some r.id := by
  intro r hr ky hky
  obtain ⟨i, hi, hfields, hkeyval, hem⟩ :=
    store_chars ctx S kfid kfname hkey huniq hres issues n hnd r hr
  rw [hkeyval] at hky
  have h1 := Option.some.inj hky
  have h2 : i.key = ky := by injection h1
  rw [← h2]
  exact hem

/-- Any stored record whose id the oracle assigns to issue `i`'s key
holds exactly `i`'s converted payload. -/
theorem store_unique_fields (ctx : SyncCtx) (S : List ATField) (kfid kfname : String)
    (hkey : alookup ctx.fieldMappings "key" = some ⟨kfid, some kfname⟩)
    (huniq : ∀ kv ∈ ctx.fieldMappings, kv.2.airtable_field_id = kfid → kv.1 = "key")
    (hres : resolveFieldId S kfname = some kfid)
    (issues : List JiraIssue) (n : Nat)
    (hnd : (issues.map JiraIssue.key).Nodup)
    (i : JiraIssue) (hi : i ∈ issues) (rid : String)
    (hem : alookup (keyIdAssoc n issues) i.key = some rid) :
    ∀ r ∈ recsFrom n (issues.map (fun j => convert_issue_to_record ctx (.obj j))),
      r.id = rid → r.fields = convert_issue_to_record ctx (.obj i) := by
  intro r hr hrid
  obtain ⟨i', hi', hfields, -, hem'⟩ :=
    store_chars ctx S kfid kfname hkey huniq hres issues n hnd r hr
  have hem'' : alookup (keyIdAssoc n issues) i'.key = some rid := by
    rw [← hrid]
    exact hem'
  have hkeq := keyIdAssoc_value_inj issues n i'.key i.key rid hem'' hem
  have hii : i' = i := issues_key_inj hnd i' hi' i hi hkeq
  rw [hfields, hii]

/-- PATCHing a converted payload onto itself changes nothing. -/
theorem conv_merge_self (ctx : SyncCtx) (i : JiraIssue) :
    mergeFields (convert_issue_to_record ctx (.obj i))
        (convert_issue_to_record ctx (.obj i))
      = convert_issue_to_record ctx (.obj i) :=
  mergeFields_noop (conv_nodup ctx i) _
    (fun kv hkv => by
      obtain ⟨a, b⟩ := kv
      exact alookup_eq_of_mem_nodup (conv_nodup ctx i) hkv)

/-- `batch_update` with payloads that merge to no change leaves the
table untouched. -/
theorem batchUpdate_noop (t : ATable) :
    ∀ ups : List (String × Payload),
      (∀ u ∈ ups, ∀ r ∈ t.records, r.id = u.1 → mergeFields r.fields u.2 = r.fields) →
      batchUpdate t ups = t := by
  have hfold : ∀ (ups : List (String × Payload)),
      (∀ u ∈ ups, ∀ r ∈ t.records, r.id = u.1 → mergeFields r.fields u.2 = r.fields) →
      ups.foldl
        (fun recs u => recs.map
          (fun r => if r.id = u.1 then { r with fields := mergeFields r.fields u.2 } else r))
        t.records = t.records := by
    intro ups
    induction ups with
    | nil => intro _; rfl
    | cons u ups ih =>
      intro h
      rw [List.foldl_cons]
      have h1 : t.records.map
          (fun r => if r.id = u.1 then { r with fields := mergeFields r.fields u.2 } else r)
          = t.records.map id := by
        apply List.map_congr_left
        intro r hr
        by_cases hid : r.id = u.1
        · rw [if_pos hid, h u (List.mem_cons_self _ _) r hr hid]
          rfl
        · rw [if_neg hid]
          rfl
      rw [h1, List.map_id]
      exact ih (fun u' hu' => h u' (List.mem_cons_of_mem _ hu'))
  intro ups h
  unfold batchUpdate
  rw [hfold ups h]

/-- When every payload's key resolves in the id map, the create/update
split sends every payload dict to the update list, paired with its
resolved record id. -/
theorem split_all_update (ctx : SyncCtx) (kfid : String)
    (hctxkey : get_airtable_field_id ctx "key" = some kfid)
    (existing : List (String × String)) :
    ∀ (ds : List Payload) (acc : List Payload × List (String × Payload)),
      (∀ d ∈ ds, ∃ k rid, alookup d kfid = some (.s k) ∧ k ≠ ""
        ∧ d.any (fun kv => pyStartsWith kv.1 "fld") = true
        ∧ alookup existing k = some rid) →
      ∃ ups,
        (ds.map PyIssue.dict).foldl
          (fun (acc : List Payload × List (String × Payload)) issue =>
            match issueBatchKey ctx issue with
            | none => acc
            | some kv =>
              if pvTruthy kv then
                let rd := convert_issue_to_record ctx issue
                match kv with
                | .s k =>
                  (match alookup existing k with
                   | some rid => (acc.1, acc.2 ++ [(rid, rd)])
                   | none => (acc.1 ++ [rd], acc.2))
                | _ => (acc.1 ++ [rd], acc.2)
              else acc) acc
        = (acc.1, acc.2 ++ ups)
        ∧ ∀ u ∈ ups, ∃ d ∈ ds, u.2 = d ∧
            ∃ k, alookup d kfid = some (.s k) ∧ alookup existing k = some u.1 := by
  intro ds
  induction ds with
  | nil =>
    intro acc _
    exact ⟨[], by simp, fun u hu => absurd hu (by simp)⟩
  | cons d ds ih =>
    intro acc hgood
    obtain ⟨k, rid, hk, hkne, hfld, hex⟩ := hgood d (List.mem_cons_self _ _)
    simp only [List.map_cons, List.foldl_cons]
    have hkey : issueBatchKey ctx (PyIssue.dict d) = some (.s k) := by
      unfold issueBatchKey
      rw [hctxkey]
      exact hk
    rw [hkey]
    dsimp only
    have htr : pvTruthy (.s k) = true := by
      unfold pvTruthy
      simpa using hkne
    rw [htr, if_pos rfl]
    rw [convert_dict_id ctx d hfld, hex]
    obtain ⟨ups', heq, hchar⟩ := ih (acc.1, acc.2 ++ [(rid, d)])
      (fun d' h' => hgood d' (List.mem_cons_of_mem _ h'))
    refine ⟨(rid, d) :: ups', ?_, ?_⟩
    · rw [heq]
      simp
    · intro u hu
      rcases List.mem_cons.mp hu with he | he
      · subst he
        exact ⟨d, List.mem_cons_self _ _, rfl, k, hk, hex⟩
      · obtain ⟨d', hd', hu2, k', hk', hex'⟩ := hchar u he
        exact ⟨d', List.mem_cons_of_mem _ hd', hu2, k', hk', hex'⟩

/-- Processing one batch of payload dicts that all resolve in the id
map and whose merges are no-ops leaves the table untouched. -/
theorem process_batch_update (ctx : SyncCtx) (kfid : String)
    (hctxkey : get_airtable_field_id ctx "key" = some kfid)
    (existing : List (String × String)) (t : ATable) (ds : List Payload)
    (hgp : ∀ d ∈ ds, ∃ k rid, alookup d kfid = some (.s k) ∧ k ≠ ""
      ∧ (∀ p ∈ d, pyStartsWith p.1 "fld" = true)
      ∧ alookup existing k = some rid
      ∧ (∀ r ∈ t.records, r.id = rid → mergeFields r.fields d = r.fields)) :
    process_issue_batch ctx t (ds.map PyIssue.dict) existing = t := by
  have hany : ∀ d ∈ ds, d.any (fun kv => pyStartsWith kv.1 "fld") = true := by
    intro d hd
    obtain ⟨k, rid, hk, -, hfld, -⟩ := hgp d hd
    exact any_fld_of_key d kfid (.s k) hk hfld
  unfold process_issue_batch
  obtain ⟨ups, heq, hchar⟩ := split_all_update ctx kfid hctxkey existing ds ([], [])
    (fun d hd => by
      obtain ⟨k, rid, hk, hkne, -, hex, -⟩ := hgp d hd
      exact ⟨k, rid, hk, hkne, hany d hd, hex⟩)
  rw [heq]
  simp only [List.nil_append, List.isEmpty_nil, eq_self_iff_true, if_true]
  have hbu : (if ups.isEmpty then t else batchUpdate t ups) = t := by
    by_cases hu : ups.isEmpty = true
    · rw [if_pos hu]
    · rw [if_neg hu]
      apply batchUpdate_noop
      intro u hu' r hr hrid
      obtain ⟨d, hd, hu2, k', hk', hex'⟩ := hchar u hu'
      obtain ⟨k, rid, hk, -, -, hex, hnoop⟩ := hgp d hd
      have hkk : k = k' := by
        have := Option.some.inj (hk.symm.trans hk')
        injection this
      have hrr : rid = u.1 := Option.some.inj ((hkk ▸ hex).symm.trans hex')
      rw [hu2]
      exact hnoop r hr (hrid.trans hrr.symm)
  rw [hbu]
  apply update_parent_noop
  intro d hd
  obtain ⟨k, rid, -, -, hfld, -⟩ := hgp d hd
  exact extract_parent_dict_none ctx d hfld

/-- Folding the per-batch processing over chunks of payloads that all
resolve to no-op updates leaves the table untouched. -/
theorem chunks_update (ctx : SyncCtx) (kfid : String)
    (hctxkey : get_airtable_field_id ctx "key" = some kfid)
    (existing : List (String × String)) (t : ATable) :
    ∀ (css : List (List (String × Payload))),
      (∀ kp ∈ css.flatten, ∃ k rid, alookup kp.2 kfid = some (.s k) ∧ k ≠ ""
        ∧ (∀ p ∈ kp.2, pyStartsWith p.1 "fld" = true)
        ∧ alookup existing k = some rid
        ∧ (∀ r ∈ t.records, r.id = rid → mergeFields r.fields kp.2 = r.fields)) →
      css.foldl
        (fun t batch =>
          process_issue_batch ctx t (batch.map (fun kp => PyIssue.dict kp.2)) existing) t
      = t := by
  intro css
  induction css with
  | nil => intro _; rfl
  | cons cs css ih =>
    intro hgp
    rw [List.foldl_cons]
    have harg : cs.map (fun kp : String × Payload => PyIssue.dict kp.2)
        = (cs.map (fun kp => kp.2)).map PyIssue.dict := by
      rw [List.map_map]
      rfl
    have hhead : process_issue_batch ctx t
        (cs.map (fun kp : String × Payload => PyIssue.dict kp.2)) existing = t := by
      rw [harg]
      apply process_batch_update ctx kfid hctxkey existing t
      intro d hd
      obtain ⟨kp, hkp, hkpe⟩ := List.mem_map.mp hd
      subst hkpe
      exact hgp kp (by rw [List.flatten_cons]; exact List.mem_append_left _ hkp)
    rw [hhead]
    exact ih (fun kp hkp => hgp kp
      (by rw [List.flatten_cons]; exact List.mem_append_right _ hkp))

/-- Run-2 characterization: running `sync_issues` again over the store
the first run produced matches every issue to its existing record and
updates it with an identical payload, changing nothing. -/
theorem sync_run2 (ctx : SyncCtx) (S : List ATField) (issues : List JiraIssue)
    (batchSize n0 pc : Nat) (kfid kfname : String)
    (hkey : alookup ctx.fieldMappings "key" = some ⟨kfid, some kfname⟩)
    (hkid : kfid ≠ "") (hkname : kfname ≠ "")
    (hres : resolveFieldId S kfname = some kfid)
    (huniq : ∀ kv ∈ ctx.fieldMappings, kv.2.airtable_field_id = kfid → kv.1 = "key")
    (hfld : ∀ kv ∈ ctx.fieldMappings, pyStartsWith kv.2.airtable_field_id "fld" = true)
    (hne : ∀ i ∈ issues, i.key ≠ "")
    (hnd : (issues.map JiraIssue.key).Nodup)
    (hbs : 0 < batchSize) :
    sync_issues ctx
      ⟨S, recsFrom n0 (issues.map (fun i => convert_issue_to_record ctx (.obj i))),
        n0 + issues.length, pc⟩ issues batchSize
    = ⟨S, recsFrom n0 (issues.map (fun i => convert_issue_to_record ctx (.obj i))),
        n0 + issues.length, pc⟩ := by
  have hctxkey : get_airtable_field_id ctx "key" = some kfid := by
    unfold get_airtable_field_id
    rw [hkey]
    rfl
  have hctxname : get_airtable_field_name ctx "key" = some kfname := by
    unfold get_airtable_field_name
    rw [hkey]
  unfold sync_issues
  by_cases hemp : issues.isEmpty = true
  · rw [if_pos hemp]
  · rw [if_neg hemp]
    obtain ⟨kp, ak, heq, -, hall⟩ := sync_transform ctx issues ([], [], [])
    rw [heq]
    dsimp only
    simp only [List.nil_append]
    apply chunks_update ctx kfid hctxkey
    intro kp' hkp'
    rw [chunksOf_flatten hbs] at hkp'
    obtain ⟨i, hi, hie⟩ := List.mem_map.mp hkp'
    subst hie
    obtain ⟨r, hr, hrfields, hrkeyval, hem⟩ :=
      store_of_issue ctx S kfid kfname hkey huniq hres issues n0 hnd i hi
    refine ⟨i.key, r.id, ?_, hne i hi, ?_, ?_, ?_⟩
    · exact conv_key_lookup ctx i kfid (some kfname) hkey huniq
    · intro p hp
      exact conv_keys ctx i (fun k => pyStartsWith k "fld" = true)
        (fun kv hkv => hfld kv hkv) p hp
    · exact get_existing_hit ctx
        ⟨S, recsFrom n0 (issues.map (fun i => convert_issue_to_record ctx (.obj i))),
          n0 + issues.length, pc⟩ ak kfid kfname (keyIdAssoc n0 issues)
        hctxkey hctxname hkid hkname
        (store_good ctx S kfid kfname hkey huniq hres issues n0 hnd)
        i.key r.id hem ⟨r, hr, hrkeyval⟩ (hne i hi) (hall i hi)
    · intro r' hr' hrid
      rw [store_unique_fields ctx S kfid kfname hkey huniq hres issues n0 hnd
        i hi r.id hem r' hr' hrid]
      exact conv_merge_self ctx i

/-- Claim C5 (amended): idempotence of `sync_issues` holds under the
configuration the matching path actually requires — the `key` mapping
must carry an Airtable field NAME that resolves in the schema to the
mapped field id (with config defaults the name is absent,
`_get_existing_record_ids` returns an empty map, and the second run
duplicates every record — see `c5_idempotence_cex`).  Under that
configuration, with mapped ids `fld`-prefixed, issue keys nonempty and
duplicate-free, no other mapping sharing the key field id, and every
converted payload accepted by the schema: a first run over an empty
store creates one record per issue, and a second run over the
unchanged source matches every issue to its existing record by key and
issues only self-merging updates — the store is unchanged and the
record count stays `issues.length` (no duplicate creation, no field
value changed). -/
theorem c5_idempotence_amended (ctx : SyncCtx) (S : List ATField)
    (issues : List JiraIssue) (batchSize n0 pc : Nat) (kfid kfname : String)
    (hkey : alookup ctx.fieldMappings "key" = some ⟨kfid, some kfname⟩)
    (hkid : kfid ≠ "") (hkname : kfname ≠ "")
    (hres : resolveFieldId S kfname = some kfid)
    (huniq : ∀ kv ∈ ctx.fieldMappings, kv.2.airtable_field_id = kfid → kv.1 = "key")
    (hfld : ∀ kv ∈ ctx.fieldMappings, pyStartsWith kv.2.airtable_field_id "fld" = true)
    (hne : ∀ i ∈ issues, i.key ≠ "")
    (hnd : (issues.map JiraIssue.key).Nodup)
    (hvalid : ∀ i ∈ issues,
      payloadValid S (convert_issue_to_record ctx (.obj i)) = true)
    (hbs : 0 < batchSize) :
    sync_issues ctx (sync_issues ctx ⟨S, [], n0, pc⟩ issues batchSize) issues batchSize
      = sync_issues ctx ⟨S, [], n0, pc⟩ issues batchSize
    ∧ (sync_issues ctx ⟨S, [], n0, pc⟩ issues batchSize).records.length
      = issues.length := by
  have h1 := sync_run1 ctx S issues batchSize n0 pc kfid (some kfname)
    hkey hkid huniq hfld hne hvalid hbs
  constructor
  · rw [h1]
    exact sync_run2 ctx S issues batchSize n0 pc kfid kfname
      hkey hkid hkname hres huniq hfld hne hnd hbs
  · rw [h1]
    simp [recsFrom_length]

/-- Witness for C5 (amended) at a concrete named-field configuration:
two issues, batch size 10 — the second run returns the first run's
store unchanged and the store holds exactly two records. -/
theorem c5_idempotence_amended_witness :
    sync_issues ctxNamedEx (sync_issues ctxNamedEx tEmptyEx [issueA1, issueA2] 10)
        [issueA1, issueA2] 10
      = sync_issues ctxNamedEx tEmptyEx [issueA1, issueA2] 10
    ∧ (sync_issues ctxNamedEx tEmptyEx [issueA1, issueA2] 10).records.length = 2 :=
  c5_idempotence_amended ctxNamedEx schemaEx [issueA1, issueA2] 10 0 0 "fldKey" "Key"
    rfl (by decide) (by decide) rfl (by decide) (by decide) (by decide) (by decide)
    (by decide) (by decide)

end JiraSync
